import Mathlib

/-!
Verification development for the health-insurance chatbot backend
(`chat.py`): business-day calendar, free-text date parser, scheduling-state
inferencer, contact extractor, topic detector and agent-suggestion policy.

The Python code is shallowly embedded: `datetime` values become a
year/month/day triple plus an abstract time-of-day number (the clock value
`datetime.now()` is passed in explicitly as a parameter `now`), strings are
Lean `String`s, and each regular expression of the source is embedded as an
explicit matcher that follows the leftmost/greedy/backtracking behaviour of
Python `re` on that concrete pattern.
-/

/-! ## Python-style string primitives -/

/-- Python whitespace class `\s` over ASCII. -/
def pyWS (c : Char) : Bool :=
  c == ' ' || c == '\t' || c == '\n' || c == '\r' || c == '\x0b' || c == '\x0c'

/-- Python `\w` word-character class (ASCII approximation). -/
def pyWord (c : Char) : Bool := c.isAlphanum || c == '_'

/-- `str.lower()`. -/
def lowerStr (s : String) : String := ⟨s.data.map Char.toLower⟩

/-- `str.strip()`. -/
def stripStr (s : String) : String :=
  ⟨((s.data.dropWhile pyWS).reverse.dropWhile pyWS).reverse⟩

/-- `str.capitalize()`: first char upper-cased, the rest lower-cased. -/
def pyCapitalize (s : String) : String :=
  match s.data with
  | [] => ""
  | c :: t => ⟨c.toUpper :: t.map Char.toLower⟩

/-- One step of `str.split()` (whitespace-run splitting, no empty words). -/
def wordsAux : List Char → List Char → List (List Char)
  | [], acc => if acc.isEmpty then [] else [acc.reverse]
  | c :: t, acc =>
    if pyWS c then
      if acc.isEmpty then wordsAux t [] else acc.reverse :: wordsAux t []
    else wordsAux t (c :: acc)

/-- `str.split()` with no separator argument. -/
def pyWords (s : String) : List String := (wordsAux s.data []).map (fun l => ⟨l⟩)

/-- `re.sub(r'\D', '', s)`: keep only decimal digits. -/
def digitsOf (s : String) : List Char := s.data.filter Char.isDigit

/-- `a` is a prefix of `b` (as character lists). -/
def prefOfL : List Char → List Char → Bool
  | [], _ => true
  | _ :: _, [] => false
  | a :: as, b :: bs => a == b && prefOfL as bs

/-- `a` is a suffix of `b` (as character lists). -/
def sufOfL (a b : List Char) : Bool := prefOfL a.reverse b.reverse

/-- Substring occurrence on character lists. -/
def hasSubL (n : List Char) : List Char → Bool
  | [] => n.isEmpty
  | c :: t => prefOfL n (c :: t) || hasSubL n t

/-- Python `needle in hay` on strings. -/
def pyIn (needle hay : String) : Bool := hasSubL needle.data hay.data

/-- Span: longest prefix satisfying `p`, and the rest. -/
def spanL (p : Char → Bool) : List Char → (List Char × List Char)
  | [] => ([], [])
  | c :: t => if p c then ((spanL p t).1.cons c, (spanL p t).2) else ([], c :: t)

/-- Case-insensitive prefix test (both sides compared lower-cased). -/
def prefOfCI (a b : List Char) : Bool :=
  prefOfL (a.map Char.toLower) (b.map Char.toLower)

/-! ## Dates

A Python `datetime` is embedded as a calendar triple plus an abstract
time-of-day value `tod : Nat` (`0` = midnight; `strptime` results carry `0`,
`datetime.now()` carries an arbitrary value).  Ordering of `datetime`
values is component-wise lexicographic, which is exactly Python's. -/

structure PDate where
  year : Nat
  month : Nat
  day : Nat
deriving DecidableEq, Repr

structure PDateTime where
  date : PDate
  tod : Nat
deriving DecidableEq, Repr

/-- Gregorian leap-year rule (Python `calendar.isleap`). -/
def isLeap (y : Nat) : Bool := y % 4 == 0 && (!(y % 100 == 0) || y % 400 == 0)

/-- Days in a month. -/
def daysInMonth (y m : Nat) : Nat :=
  if m == 2 then (if isLeap y then 29 else 28)
  else if m == 4 || m == 6 || m == 9 || m == 11 then 30
  else 31

/-- A calendar triple that `datetime` would accept (year at least 1). -/
def validDate (t : PDate) : Prop :=
  1 ≤ t.year ∧ 1 ≤ t.month ∧ t.month ≤ 12 ∧ 1 ≤ t.day ∧ t.day ≤ daysInMonth t.year t.month

instance (t : PDate) : Decidable (validDate t) := by unfold validDate; infer_instance

def validDT (dt : PDateTime) : Prop := validDate dt.date

instance (dt : PDateTime) : Decidable (validDT dt) := by unfold validDT; infer_instance

/-- Calendar successor (`+ timedelta(days=1)` on the date part). -/
def nextDate (t : PDate) : PDate :=
  if t.day < daysInMonth t.year t.month then ⟨t.year, t.month, t.day + 1⟩
  else if t.month < 12 then ⟨t.year, t.month + 1, 1⟩
  else ⟨t.year + 1, 1, 1⟩

/-- `date + timedelta(days=n)`. -/
def addDays (t : PDate) : Nat → PDate
  | 0 => t
  | n + 1 => nextDate (addDays t n)

/-- `datetime + timedelta(days=n)`: the time of day is preserved. -/
def addDaysDT (dt : PDateTime) (n : Nat) : PDateTime := ⟨addDays dt.date n, dt.tod⟩

/-- Day number of a calendar triple (proleptic Gregorian, era-based
formula; `0001-01-01` has number 306). Used to define `weekday()`. -/
def rataDie (t : PDate) : Nat :=
  let y := if t.month ≤ 2 then t.year - 1 else t.year
  let era := y / 400
  let yoe := y % 400
  let mp := if 2 < t.month then t.month - 3 else t.month + 9
  let doy := (153 * mp + 2) / 5 + t.day - 1
  era * 146097 + (yoe * 365 + yoe / 4 - yoe / 100 + doy)

/-- `datetime.weekday()`: Monday = 0 … Sunday = 6. -/
def weekday (t : PDate) : Nat := (rataDie t + 2) % 7

def weekdayDT (dt : PDateTime) : Nat := weekday dt.date

/-- Lexicographic date comparison: Python's `datetime` order on the date part. -/
def dateLt (a b : PDate) : Bool :=
  a.year < b.year || (a.year == b.year &&
    (a.month < b.month || (a.month == b.month && a.day < b.day)))

/-- Python `datetime <` (date, then time of day). -/
def dtLt (a b : PDateTime) : Bool :=
  dateLt a.date b.date || (a.date == b.date && a.tod < b.tod)

/-! ## Business calendar (`chat.py` lines 13-76) -/

/-- `US_HOLIDAYS`: fixed `(year, month, day)` table from the source. -/
def US_HOLIDAYS : List (Nat × Nat × Nat) :=
  [(2024, 1, 1), (2024, 1, 15), (2024, 2, 19), (2024, 5, 27), (2024, 6, 19),
   (2024, 7, 4), (2024, 9, 2), (2024, 10, 14), (2024, 11, 11), (2024, 11, 28),
   (2024, 12, 25),
   (2025, 1, 1), (2025, 1, 20), (2025, 2, 17), (2025, 5, 26), (2025, 6, 19),
   (2025, 7, 4), (2025, 9, 1), (2025, 10, 13), (2025, 11, 11), (2025, 11, 27),
   (2025, 12, 25),
   (2026, 1, 1)]

/-- `is_business_day`: weekday (Mon-Fri) and not in the holiday table. -/
def is_business_day (dt : PDateTime) : Bool :=
  if 5 ≤ weekdayDT dt then false
  else if US_HOLIDAYS.contains (dt.date.year, dt.date.month, dt.date.day) then false
  else true

/-- The collecting `while` loop of `get_next_business_days`, embedded with a
fuel bound on the number of iterations (theorem `c10_...` proves the bound
used below is always sufficient, i.e. the Python loop terminates). -/
def collectBD : Nat → PDateTime → Nat → List PDateTime
  | 0, _, _ => []
  | _ + 1, _, 0 => []
  | fuel + 1, cur, need + 1 =>
    if is_business_day cur then cur :: collectBD fuel (addDaysDT cur 1) need
    else collectBD fuel (addDaysDT cur 1) (need + 1)

/-- `get_next_business_days(count, min_days_ahead)` with the clock value
passed explicitly. -/
def get_next_business_days (now : PDateTime) (count min_days_ahead : Nat) :
    List PDateTime :=
  collectBD (168 * count) (addDaysDT now min_days_ahead) count

/-- Month abbreviations for `strftime("%b")`. -/
def monthAbbr : List String :=
  ["Jan", "Feb", "Mar", "Apr", "May", "Jun", "Jul", "Aug", "Sep", "Oct", "Nov", "Dec"]

/-- Full month names for `strftime("%B")`. -/
def monthFull : List String :=
  ["January", "February", "March", "April", "May", "June", "July", "August",
   "September", "October", "November", "December"]

/-- Weekday names for `strftime("%A")` (Monday first, matching `weekday()`). -/
def weekdayName : List String :=
  ["Monday", "Tuesday", "Wednesday", "Thursday", "Friday", "Saturday", "Sunday"]

def digitChar (n : Nat) : Char := Char.ofNat (48 + n)

/-- `strftime("%d")`: zero-padded two-digit day. -/
def pad2 (n : Nat) : String := ⟨[digitChar (n / 10 % 10), digitChar (n % 10)]⟩

/-- `strftime("%A, %b %d")`. -/
def fmtAbd (dt : PDateTime) : String :=
  (weekdayName.getD (weekdayDT dt) "") ++ ", " ++
    (monthAbbr.getD (dt.date.month - 1) "") ++ " " ++ pad2 dt.date.day

/-- `strftime("%A, %B %d")`. -/
def fmtABd (dt : PDateTime) : String :=
  (weekdayName.getD (weekdayDT dt) "") ++ ", " ++
    (monthFull.getD (dt.date.month - 1) "") ++ " " ++ pad2 dt.date.day

/-- `format_date_options()`. -/
def format_date_options (now : PDateTime) : String :=
  String.intercalate ", " ((get_next_business_days now 3 2).map fmtAbd)

/-! ## Free-text date parser (`parse_user_date`, `chat.py` lines 79-123)

`datetime.strptime` is embedded per concrete format string.  A format that
fails to match, or whose day is out of range for its month (in the default
year 1900), raises `ValueError` in Python; the `try/except ValueError:
continue` of the source makes that equivalent to returning `none` here. -/

/-- The `day_map` of the source, in insertion order. -/
def dayMap : List (String × Nat) :=
  [("monday", 0), ("tuesday", 1), ("wednesday", 2), ("thursday", 3),
   ("friday", 4), ("saturday", 5), ("sunday", 6)]

/-- The `for day_name, day_num in day_map.items()` scan: the first weekday
name occurring in the lowered text wins. -/
def firstDayName (userLower : String) : Option Nat :=
  (dayMap.find? (fun p => pyIn p.1 userLower)).map (·.2)

/-- Match a calendar-name token case-insensitively; returns the 1-based
index and the rest of the input. -/
def nameTok (names : List String) (l : List Char) : Option (Nat × List Char) :=
  (names.enumFrom 1).findSome? fun p =>
    if prefOfCI p.2.data l then some (p.1, l.drop p.2.data.length) else none

/-- `strptime` day field `%d` (CPython `_strptime` regex
`3[0-1]|[1-2]\d|0[1-9]|[1-9]| [1-9]`: the last alternative is a literal
space followed by a nonzero digit). -/
def dayTok : List Char → Option (Nat × List Char)
  | c1 :: c2 :: r =>
    if c1 == '3' && (c2 == '0' || c2 == '1') then some (30 + (c2.val.toNat - 48), r)
    else if (c1 == '1' || c1 == '2') && c2.isDigit then
      some ((c1.val.toNat - 48) * 10 + (c2.val.toNat - 48), r)
    else if c1 == '0' && ('1' ≤ c2 && c2 ≤ '9') then some (c2.val.toNat - 48, r)
    else if '1' ≤ c1 && c1 ≤ '9' then some (c1.val.toNat - 48, c2 :: r)
    else if c1 == ' ' && ('1' ≤ c2 && c2 ≤ '9') then some (c2.val.toNat - 48, r)
    else none
  | [c1] => if '1' ≤ c1 && c1 ≤ '9' then some (c1.val.toNat - 48, []) else none
  | [] => none

/-- `strptime` month field `%m` (regex `1[0-2]|0[1-9]|[1-9]`). -/
def monthNumTok : List Char → Option (Nat × List Char)
  | c1 :: c2 :: r =>
    if c1 == '1' && (c2 == '0' || c2 == '1' || c2 == '2') then
      some (10 + (c2.val.toNat - 48), r)
    else if c1 == '0' && ('1' ≤ c2 && c2 ≤ '9') then some (c2.val.toNat - 48, r)
    else if '1' ≤ c1 && c1 ≤ '9' then some (c1.val.toNat - 48, c2 :: r)
    else none
  | [c1] => if '1' ≤ c1 && c1 ≤ '9' then some (c1.val.toNat - 48, []) else none
  | [] => none

/-- Whitespace in a `strptime` format: matches one or more `\s`. -/
def wsTok (l : List Char) : Option (List Char) :=
  match spanL pyWS l with
  | ([], _) => none
  | (_ :: _, r) => some r

/-- Day-of-month validation performed by the `datetime(1900, m, d)`
construction inside `strptime`. -/
def checkDay1900 (md : Nat × List Char) (m : Nat) : Option (Nat × Nat) :=
  if md.2.isEmpty && md.1 ≤ daysInMonth 1900 m then some (m, md.1) else none

/-- `strptime(s, "%B %d")` / `strptime(s, "%b %d")` (month-name formats). -/
def strptimeMonthName (names : List String) (s : String) : Option (Nat × Nat) :=
  match nameTok names s.data with
  | none => none
  | some (m, r1) =>
    match wsTok r1 with
    | none => none
    | some r2 =>
      match dayTok r2 with
      | none => none
      | some md => checkDay1900 md m

/-- `strptime(s, "%m/%d")` / `strptime(s, "%m-%d")` (separator `sep`). -/
def strptimeNum (sep : Char) (s : String) : Option (Nat × Nat) :=
  match monthNumTok s.data with
  | none => none
  | some (m, r1) =>
    match r1 with
    | c :: r2 =>
      if c == sep then
        match dayTok r2 with
        | none => none
        | some md => checkDay1900 md m
      else none
    | [] => none

/-- `strptime(s, "%A, %b %d")`: the weekday name is parsed and discarded. -/
def strptimeAbd (s : String) : Option (Nat × Nat) :=
  match nameTok weekdayName s.data with
  | none => none
  | some (_, r1) =>
    match r1 with
    | c :: r2 =>
      if c == ',' then
        match wsTok r2 with
        | none => none
        | some r3 =>
          match nameTok monthAbbr r3 with
          | none => none
          | some (m, r4) =>
            match wsTok r4 with
            | none => none
            | some r5 =>
              match dayTok r5 with
              | none => none
              | some md => checkDay1900 md m
      else none
    | [] => none

/-- Year assignment and validation of the fixed-format branch: give the
parsed `(month, day)` the current year (rolling to next year if the result
is before `today`), then require at least two days of lead time and a
business day.  `replace(year=...)` cannot raise here because `strptime`
already validated the day against year 1900, whose February is shortest. -/
def checkParsed (now : PDateTime) (md : Nat × Nat) : Option PDateTime :=
  let minDate := addDaysDT now 2
  let parsed : PDateTime := ⟨⟨now.date.year, md.1, md.2⟩, 0⟩
  let parsed := if dtLt parsed now then ⟨⟨now.date.year + 1, md.1, md.2⟩, 0⟩ else parsed
  if !(dtLt parsed minDate) && is_business_day parsed then some parsed else none

/-- One format of the `for fmt in formats` loop: failure of either the
parse or the validation falls through to the next format. -/
def tryFmt (now : PDateTime) (md? : Option (Nat × Nat)) : Option PDateTime :=
  md?.bind (checkParsed now)

/-- The `while target < min_date: target += timedelta(days=7)` loop of the
weekday-name branch.  `target` starts at most 7 days behind `min_date`, so
the loop body runs at most once; fuel 2 is therefore exact. -/
def weekBump : Nat → PDateTime → PDateTime → PDateTime
  | 0, _, t => t
  | fuel + 1, minDate, t =>
    if dtLt t minDate then weekBump fuel minDate (addDaysDT t 7) else t

/-- `parse_user_date(user_input)` with the clock value passed explicitly. -/
def parse_user_date (now : PDateTime) (userInput : String) : Option PDateTime :=
  let minDate := addDaysDT now 2
  let userLower := lowerStr (stripStr userInput)
  match firstDayName userLower with
  | some dayNum =>
    let daysAhead : Int := (((dayNum : Int) - (weekdayDT now : Int)) % 7)
    let daysAhead := if daysAhead == 0 then 7 else daysAhead
    let target := addDaysDT now daysAhead.toNat
    let target := weekBump 2 minDate target
    if is_business_day target then some target else none
  | none =>
    match tryFmt now (strptimeMonthName monthFull userInput) with
    | some r => some r
    | none =>
      match tryFmt now (strptimeMonthName monthAbbr userInput) with
      | some r => some r
      | none =>
        match tryFmt now (strptimeNum '/' userInput) with
        | some r => some r
        | none =>
          match tryFmt now (strptimeNum '-' userInput) with
          | some r => some r
          | none =>
            match tryFmt now (strptimeAbd userInput) with
            | some r => some r
            | none => none

/-! ## Embedded regular-expression matchers

Each concrete pattern of `extract_contact_info` and
`detect_scheduling_context` is embedded as an explicit matcher with the
leftmost-then-greedy (with backtracking) semantics of Python `re`. -/

/-- `\b` between an optional previous and next character: exactly one side
is a word character. -/
def isBoundary (prev next : Option Char) : Bool :=
  (match prev with | some c => pyWord c | none => false) !=
  (match next with | some c => pyWord c | none => false)

/-- Take exactly `n` decimal digits. -/
def takeDigitsN : Nat → List Char → Option (List Char × List Char)
  | 0, l => some ([], l)
  | n + 1, c :: r =>
    if c.isDigit then (takeDigitsN n r).map (fun p => (c :: p.1, p.2)) else none
  | _ + 1, [] => none

/-- The separator class `[-.\s]` of the phone patterns. -/
def isPhoneSep (c : Char) : Bool := c == '-' || c == '.' || pyWS c

/-- Tail `\d{4}\b` of phone pattern 1. -/
def p1D4 (r : List Char) : Option (List Char) :=
  match takeDigitsN 4 r with
  | none => none
  | some (c, r3) =>
    match r3.head? with
    | some nc => if pyWord nc then none else some c
    | none => some c

/-- Tail `\d{3}[-.\s]?\d{4}\b` of phone pattern 1 (separator greedy,
backtracking to the no-separator branch). -/
def p1D3Tail (r : List Char) : Option (List Char) :=
  match takeDigitsN 3 r with
  | none => none
  | some (b, r2) =>
    match r2 with
    | s :: r2' =>
      if isPhoneSep s then
        match p1D4 r2' with
        | some m => some (b ++ [s] ++ m)
        | none => (p1D4 r2).map (fun m => b ++ m)
      else (p1D4 r2).map (fun m => b ++ m)
    | [] => (p1D4 []).map (fun m => b ++ m)

/-- Phone pattern 1, `\b\d{3}[-.\s]?\d{3}[-.\s]?\d{4}\b`, anchored at the
current position (`prev` is the preceding character).  The first pattern
character is a digit (a word character), so the leading `\b` amounts to
`prev` not being a word character. -/
def p1At (prev : Option Char) (l : List Char) : Option (List Char) :=
  if (match prev with | some c => pyWord c | none => false) then none
  else
    match takeDigitsN 3 l with
    | none => none
    | some (a, r1) =>
      match r1 with
      | s :: r1' =>
        if isPhoneSep s then
          match p1D3Tail r1' with
          | some m => some (a ++ [s] ++ m)
          | none => (p1D3Tail r1).map (fun m => a ++ m)
        else (p1D3Tail r1).map (fun m => a ++ m)
      | [] => (p1D3Tail []).map (fun m => a ++ m)

/-- `re.search` scan for phone pattern 1. -/
def p1Go (prev : Option Char) : List Char → Option (List Char)
  | [] => none
  | c :: t =>
    match p1At prev (c :: t) with
    | some m => some m
    | none => p1Go (some c) t

/-- Tail `[-.\s]?\d{4}` of phone pattern 2 (no trailing boundary). -/
def p2Tail (r : List Char) : Option (List Char) :=
  match r with
  | s :: r' =>
    if isPhoneSep s then
      match takeDigitsN 4 r' with
      | some (c, _) => some ([s] ++ c)
      | none => (takeDigitsN 4 r).map (fun p => p.1)
    else (takeDigitsN 4 r).map (fun p => p.1)
  | [] => (takeDigitsN 4 []).map (fun p => p.1)

/-- Phone pattern 2, `\(\d{3}\)\s*\d{3}[-.\s]?\d{4}`, anchored at the
current position. -/
def p2At (l : List Char) : Option (List Char) :=
  match l with
  | '(' :: r0 =>
    match takeDigitsN 3 r0 with
    | none => none
    | some (a, r1) =>
      match r1 with
      | ')' :: r2 =>
        match takeDigitsN 3 (spanL pyWS r2).2 with
        | none => none
        | some (b, r4) =>
          (p2Tail r4).map (fun m => '(' :: a ++ [')'] ++ (spanL pyWS r2).1 ++ b ++ m)
      | _ => none
  | _ => none

/-- `re.search` scan for phone pattern 2. -/
def p2Go : List Char → Option (List Char)
  | [] => none
  | c :: t =>
    match p2At (c :: t) with
    | some m => some m
    | none => p2Go t

/-- Character classes of the email pattern
`\b[A-Za-z0-9._%+-]+@[A-Za-z0-9.-]+\.[A-Z|a-z]{2,}\b`. -/
def isLocalChar (c : Char) : Bool :=
  c.isAlphanum || c == '.' || c == '_' || c == '%' || c == '+' || c == '-'

def isDomChar (c : Char) : Bool := c.isAlphanum || c == '.' || c == '-'

def isTldChar (c : Char) : Bool := c.isAlpha || c == '|'

/-- Greedy `{2,}` with trailing `\b`: try `t` characters of the TLD run,
backtracking downwards to length 2. -/
def tldTry (run rest : List Char) : Nat → Option (List Char)
  | 0 => none
  | t + 1 =>
    if t + 1 < 2 then none
    else if t + 1 ≤ run.length &&
        isBoundary ((run.take (t + 1)).getLast? )
          (if t + 1 < run.length then run.get? (t + 1) else rest.head?) then
      some (run.take (t + 1))
    else tldTry run rest t

/-- Greedy `[A-Za-z0-9.-]+\.` with backtracking: try the dot at index `k`
of the domain run, from the largest `k` downwards (`k = 0` would leave the
`+` empty and is excluded). -/
def dotTry (loc dom r3 : List Char) : Nat → Option (List Char)
  | 0 => none
  | k + 1 =>
    if dom.get? (k + 1) == some '.' then
      let tldText := dom.drop (k + 2) ++ r3
      let run := spanL isTldChar tldText
      match tldTry run.1 run.2 run.1.length with
      | some tld => some (loc ++ ['@'] ++ dom.take (k + 1) ++ ['.'] ++ tld)
      | none => dotTry loc dom r3 k
    else dotTry loc dom r3 k

/-- The email pattern anchored at the current position. -/
def emailAt (prev : Option Char) (l : List Char) : Option (List Char) :=
  if !isBoundary prev l.head? then none
  else
    match spanL isLocalChar l with
    | ([], _) => none
    | (loc, r1) =>
      match r1 with
      | '@' :: r2 =>
        let dr := spanL isDomChar r2
        dotTry loc dr.1 dr.2 (dr.1.length - 1)
      | _ => none

/-- `re.search` scan for the email pattern. -/
def emailGo (prev : Option Char) : List Char → Option (List Char)
  | [] => none
  | c :: t =>
    match emailAt prev (c :: t) with
    | some m => some m
    | none => emailGo (some c) t

/-- Alternatives of the name pattern of `extract_contact_info`. -/
def introPhrases : List String := ["my name is", "i'm", "i am", "this is", "call me"]

/-- Name pattern 1 of `extract_contact_info`,
`(?:my name is|i'm|i am|this is|call me)\s+([A-Z][a-z]+)(?:\s+([A-Z][a-z]+))?`
with `re.IGNORECASE`, anchored at the current position.  Under `IGNORECASE`
the group `[A-Z][a-z]+` is a maximal run of letters of length at least 2;
the optional second group never forces backtracking into the first. -/
def nameP1At (l : List Char) : Option (List Char × Option (List Char)) :=
  introPhrases.findSome? fun ph =>
    if prefOfCI ph.data l then
      let r := l.drop ph.data.length
      match spanL pyWS r with
      | ([], _) => none
      | (_ :: _, r1) =>
        let g1 := spanL Char.isAlpha r1
        if g1.1.length < 2 then none
        else
          match spanL pyWS g1.2 with
          | ([], _) => some (g1.1, none)
          | (_ :: _, r3) =>
            let g2 := spanL Char.isAlpha r3
            if g2.1.length < 2 then some (g1.1, none) else some (g1.1, some g2.1)
    else none

/-- `re.search` scan for name pattern 1. -/
def nameP1Go : List Char → Option (List Char × Option (List Char))
  | [] => none
  | c :: t =>
    match nameP1At (c :: t) with
    | some r => some r
    | none => nameP1Go t

/-- Name pattern 2 of `extract_contact_info`,
`^([A-Z][a-z]+)(?:\s+([A-Z][a-z]+))?$` with `re.IGNORECASE`: one or two
letter words (each of length at least 2) making up the whole string. -/
def nameP2 (l : List Char) : Option (List Char × Option (List Char)) :=
  let g1 := spanL Char.isAlpha l
  if g1.1.length < 2 then none
  else
    match g1.2 with
    | [] => some (g1.1, none)
    | _ :: _ =>
      match spanL pyWS g1.2 with
      | ([], _) => none
      | (_ :: _, r2) =>
        let g2 := spanL Char.isAlpha r2
        if 2 ≤ g2.1.length && g2.2.isEmpty then some (g1.1, some g2.1) else none

/-- Alternatives of the self-introduction pattern of
`detect_scheduling_context` (note: `this is` replaced by `it's` relative to
the extractor pattern). -/
def introPhrases2 : List String := ["my name is", "i'm", "i am", "call me", "it's"]

/-- `(?:my name is|i'm|i am|call me|it's)\s+(\w+)` with `re.IGNORECASE`,
anchored at the current position.  The captured word is used only through
`str.capitalize`, which lower-cases everything after the first letter, so
matching on the lower-cased text is observationally identical. -/
def introNameAt (l : List Char) : Option (List Char) :=
  introPhrases2.findSome? fun ph =>
    if prefOfCI ph.data l then
      let r := l.drop ph.data.length
      match spanL pyWS r with
      | ([], _) => none
      | (_ :: _, r1) =>
        let w := spanL pyWord r1
        if w.1.isEmpty then none else some w.1
    else none

/-- `re.search` scan for the self-introduction pattern. -/
def introNameGo : List Char → Option (List Char)
  | [] => none
  | c :: t =>
    match introNameAt (c :: t) with
    | some r => some r
    | none => introNameGo t

/-- `re.match(r'^[\d\s\-\(\)\.]+$', content)`: the whole (nonempty) string
consists of digits, whitespace and phone punctuation. -/
def phoneCharsOnly (c : Char) : Bool :=
  c.isDigit || pyWS c || c == '-' || c == '(' || c == ')' || c == '.'

def allPhoneChars (s : String) : Bool :=
  !s.data.isEmpty && s.data.all phoneCharsOnly

/-- `Great,\s+([A-Za-z]+,\s+[A-Za-z]+\s+\d+)\s+it is` with `re.IGNORECASE`,
anchored at the current position; returns the captured group (which keeps
the matched whitespace verbatim). -/
def greatAt (l : List Char) : Option (List Char) :=
  if prefOfCI "great,".data (l.take 6) && 6 ≤ l.length then
    match spanL pyWS (l.drop 6) with
    | ([], _) => none
    | (_ :: _, r1) =>
      match spanL Char.isAlpha r1 with
      | ([], _) => none
      | (a1, r2) =>
        match r2 with
        | ',' :: r3 =>
          match spanL pyWS r3 with
          | ([], _) => none
          | (w1, r4) =>
            match spanL Char.isAlpha r4 with
            | ([], _) => none
            | (a2, r5) =>
              match spanL pyWS r5 with
              | ([], _) => none
              | (w2, r6) =>
                match spanL Char.isDigit r6 with
                | ([], _) => none
                | (dg, r7) =>
                  match spanL pyWS r7 with
                  | ([], _) => none
                  | (_ :: _, r8) =>
                    if prefOfCI "it is".data (r8.take 5) && 5 ≤ r8.length then
                      some (a1 ++ [','] ++ w1 ++ a2 ++ w2 ++ dg)
                    else none
        | _ => none
  else none

/-- `re.search` scan for the confirmed-date pattern. -/
def greatGo : List Char → Option (List Char)
  | [] => none
  | c :: t =>
    match greatAt (c :: t) with
    | some r => some r
    | none => greatGo t

/-! ## Conversation data model and the remaining components of `chat.py` -/

/-- One conversation message `{role, content}`. -/
structure Msg where
  role : String
  content : String
deriving DecidableEq, Repr

/-- Extracted contact information. -/
structure ContactInfo where
  first_name : Option String
  last_name : Option String
  email : Option String
  phone : Option String
deriving DecidableEq, Repr

/-- Stop-word list of the first-name filter. -/
def stopWords : List String :=
  ["yes", "no", "sure", "okay", "thanks", "hello", "hi", "hey", "medicare", "insurance"]

/-- Apply one name-pattern match to the `(first_name, last_name)` state:
group 1 fills `first_name` (if unset and not a stop word), group 2 fills
`last_name` (if present and unset). -/
def applyNameMatch (st : Option String × Option String) :
    Option (List Char × Option (List Char)) → Option String × Option String
  | none => st
  | some (g1, g2) =>
    let fn :=
      if st.1.isNone then
        let first := pyCapitalize ⟨g1⟩
        if stopWords.contains (lowerStr first) then st.1 else some first
      else st.1
    let ln :=
      match g2 with
      | some g2v => if st.2.isNone then some (pyCapitalize ⟨g2v⟩) else st.2
      | none => st.2
    (fn, ln)

/-- `extract_contact_info(messages)` (`chat.py` lines 389-449). -/
def extract_contact_info (messages : List Msg) : ContactInfo :=
  let userMsgs := (messages.filter (fun m => m.role == "user")).map Msg.content
  let fullText := String.intercalate " " userMsgs
  let email := (emailGo none fullText.data).map (fun m => (⟨m⟩ : String))
  let phone :=
    match p1Go none fullText.data with
    | some m => some ((⟨m.filter Char.isDigit⟩ : String))
    | none =>
      match p2Go fullText.data with
      | some m => some ((⟨m.filter Char.isDigit⟩ : String))
      | none => none
  let names := userMsgs.foldl
    (fun st msg =>
      let msgClean := stripStr msg
      let st1 := applyNameMatch st (nameP1Go msgClean.data)
      applyNameMatch st1 (nameP2 msgClean.data))
    ((none : Option String), (none : Option String))
  ⟨names.1, names.2, email, phone⟩

/-- `has_complete_contact_info`. -/
def has_complete_contact_info (ci : ContactInfo) : Bool :=
  ci.first_name.isSome && (ci.email.isSome || ci.phone.isSome)

/-- The `topic_keywords` table, in source order. -/
def topicKeywords : List (String × List String) :=
  [("Medicare", ["medicare", "part a", "part b", "part c", "part d", "65", "turning 65"]),
   ("Medicare Advantage", ["medicare advantage", "ma plan", "part c"]),
   ("Medigap", ["medigap", "supplement", "supplemental"]),
   ("ACA/Marketplace", ["marketplace", "obamacare", "aca", "healthcare.gov", "subsidy", "subsidies"]),
   ("Medicaid", ["medicaid", "low income", "medicaid expansion"]),
   ("Prescription Drugs", ["drug", "medication", "prescription", "part d", "pharmacy"]),
   ("Enrollment", ["enroll", "sign up", "open enrollment", "deadline"]),
   ("Costs", ["cost", "premium", "deductible", "copay", "afford"]),
   ("Coverage", ["cover", "coverage", "benefit", "include"])]

/-- `detect_insurance_topics(message)`. -/
def detect_insurance_topics (message : String) : List String :=
  let ml := lowerStr message
  (topicKeywords.filter (fun p => p.2.any (fun kw => pyIn kw ml))).map Prod.fst

/-- The `intent_signals` list of `should_suggest_agent`. -/
def intentSignals : List String :=
  ["what should i do", "what plan", "which one", "help me choose", "confused",
   "don't know what", "recommend", "best option", "sign up", "enroll"]

/-- `should_suggest_agent(messages, topics)` (`chat.py` lines 491-529). -/
def should_suggest_agent (messages : List Msg) (topics : List String) : Bool :=
  let messageCount := (messages.filter (fun m => m.role == "user")).length
  if 4 ≤ messageCount then true
  else if 3 ≤ topics.length then true
  else
    let lastMessage :=
      match messages.getLast? with
      | some m => lowerStr m.content
      | none => ""
    if intentSignals.any (fun s => pyIn s lastMessage) then true else false

/-! ## The scheduling-state inferencer (`detect_scheduling_context`,
`chat.py` lines 134-346) -/

/-- The fixed reply that starts the scheduling flow. -/
def nameQuestion : String :=
  "I'd be happy to connect you with a licensed agent! First, what's your name?"

/-- `is_scheduling_request` over the lowered latest user message. -/
def isSchedulingRequest (userLower : String) : Bool :=
  pyIn "schedule" userLower || pyIn "call me" userLower ||
    (pyIn "agent" userLower &&
      (pyIn "talk" userLower || pyIn "speak" userLower || pyIn "connect" userLower)) ||
    pyIn "talk to someone" userLower || pyIn "speak with" userLower

/-- The scan for the most recent assistant message among `messages[:-1]`,
already lower-cased as in the source. -/
def lastAssistantMsg (messages : List Msg) : Option String :=
  ((messages.dropLast.reverse.find? (fun m => m.role == "assistant")).map
    (fun m => lowerStr m.content))

/-- Did some assistant message ask for a name (`has_name_question`)? -/
def hasNameQuestion (messages : List Msg) : Bool :=
  messages.any (fun m =>
    m.role == "assistant" &&
      (pyIn "your name" (lowerStr m.content) || pyIn "first name" (lowerStr m.content)))

/-- The three-needle name-question test used inside the scan loops. -/
def nameQ3 (content : String) : Bool :=
  pyIn "your name" (lowerStr content) || pyIn "first name" (lowerStr content) ||
    pyIn "what's your name" (lowerStr content)

/-- Capture a name from a user message: self-introduction pattern first,
else the first whitespace-delimited word when it is longer than one
character; `dflt` when neither applies. -/
def captureName (content dflt : String) : String :=
  match introNameGo (lowerStr content).data with
  | some w => pyCapitalize ⟨w⟩
  | none =>
    match pyWords content with
    | w0 :: _ => if 1 < w0.length then pyCapitalize w0 else dflt
    | [] => dflt

/-- The name/phone recovery loop of the time step (`chat.py` 242-263):
state `(found_name_question, name, phone)`, the name captured once, the
phone overwritten by each exactly-10-digit user message. -/
def timeScan : List Msg → Bool → String → String → String × String
  | [], _, name, phone => (name, phone)
  | m :: rest, found, name, phone =>
    if m.role == "assistant" then
      timeScan rest (found || nameQ3 m.content) name phone
    else if m.role == "user" then
      let content := stripStr m.content
      let cd := digitsOf content
      if cd.length == 10 then timeScan rest found name (⟨cd⟩ : String)
      else if found && name == "there" then
        if !allPhoneChars content then
          timeScan rest false (captureName content name) phone
        else timeScan rest found name phone
      else timeScan rest found name phone
    else timeScan rest found name phone

/-- The name recovery loop of the phone step (`chat.py` 317-338): stops
(`break`) at the first non-numeric user message following a name
question. -/
def phoneScan : List Msg → Bool → String
  | [], _ => "there"
  | m :: rest, found =>
    if m.role == "assistant" then phoneScan rest (found || nameQ3 m.content)
    else if m.role == "user" && found then
      let content := stripStr m.content
      if !allPhoneChars content then captureName content "there"
      else phoneScan rest found
    else phoneScan rest found

/-- The time-step reply (`chat.py` 228-283). -/
def timeStepReply (messages : List Msg) (userLower lastAssistant : String) : String :=
  let date : String :=
    match greatGo lastAssistant.data with
    | some d => (⟨d⟩ : String)
    | none => ""
  let np := timeScan messages false "there" ""
  let timeStr :=
    if pyIn "morning" userLower then "morning"
    else if pyIn "afternoon" userLower then "afternoon"
    else if pyIn "evening" userLower then "evening"
    else userLower
  if !(np.2 == "") && !(date == "") then
    "Perfect, " ++ np.1 ++ "! An agent will call you at " ++ np.2 ++ " on " ++ date ++
      " in the " ++ timeStr ++ ". Is there anything else I can help you with?"
  else if !(np.2 == "") then
    "Perfect, " ++ np.1 ++ "! An agent will call you at " ++ np.2 ++ " in the " ++
      timeStr ++ ". Is there anything else I can help you with?"
  else if !(date == "") then
    "Perfect, " ++ np.1 ++ "! An agent will call you on " ++ date ++ " in the " ++
      timeStr ++ ". Is there anything else I can help you with?"
  else
    "Perfect, " ++ np.1 ++ "! An agent will call you in the " ++ timeStr ++
      ". Is there anything else I can help you with?"

/-- `detect_scheduling_context(messages)` with the clock value passed
explicitly (the source reads it through `get_next_business_days` and
`parse_user_date`).  The source guard `if not last_assistant_msg` is a
falsiness test: it fires both when no assistant message exists (`None`)
and when the most recent one has empty content (`""`), hence the explicit
empty-string check after the `match`. -/
def detect_scheduling_context (now : PDateTime) (messages : List Msg) :
    Option String :=
  if messages.length < 1 then none
  else
    let latestUserMsg :=
      match messages.getLast? with
      | some m => if m.role == "user" then stripStr m.content else ""
      | none => ""
    let userLower := lowerStr latestUserMsg
    let schedReq := isSchedulingRequest userLower
    if messages.length == 1 && schedReq then some nameQuestion
    else if messages.length < 2 then none
    else
      match lastAssistantMsg messages with
      | none => none
      | some la =>
        if la == "" then none
        else
          let has10Digits := (digitsOf latestUserMsg).length == 10
          if pyIn "perfect" la || pyIn "agent will call" la then none
          else if schedReq && !hasNameQuestion messages then some nameQuestion
          else
            let askName :=
              pyIn "your name" la || pyIn "first name" la || pyIn "what's your name" la
            if askName && !has10Digits then
              let name := stripStr latestUserMsg
              let name :=
                match introNameGo (lowerStr name).data with
                | some w => pyCapitalize ⟨w⟩
                | none =>
                  match pyWords name with
                  | w0 :: _ => pyCapitalize w0
                  | [] => name
              some ("Nice to meet you, " ++ name ++
                "! What's the best phone number to reach you at?")
            else
              let askTime :=
                pyIn "morning" la && pyIn "afternoon" la && pyIn "evening" la
              if askTime then some (timeStepReply messages userLower la)
              else
                let askDate :=
                  pyIn "what day" la || pyIn "which day" la ||
                    pyIn "available days" la || (pyIn "day" la && pyIn "works" la)
                if askDate then
                  match parse_user_date now latestUserMsg with
                  | some pd =>
                    some ("Great, " ++ fmtABd pd ++
                      " it is! What time works best - morning, afternoon, or evening?")
                  | none =>
                    some ("Sorry, that date isn't available. Our next available days are: " ++
                      format_date_options now ++ ". Which works best for you?")
                else
                  let askPhone :=
                    (pyIn "phone" la || pyIn "number" la) &&
                      (pyIn "what" la || pyIn "best" la || pyIn "reach" la) &&
                      !(pyIn "confirm" la) && !(pyIn "day" la)
                  if has10Digits && askPhone then
                    some ("Got it, " ++ phoneScan messages false ++
                      "! What day works best for the call? Our next available days are: " ++
                      format_date_options now)
                  else none

/-! ## The holiday table as day numbers, and the business-day window -/

/-- Day numbers of the configured holidays. -/
def holidayNums : List Nat := US_HOLIDAYS.map (fun t => rataDie ⟨t.1, t.2.1, t.2.2⟩)

/-- `l` is exactly the list of the first `l.length` business days on or
after `cur`, each with its offset, with every skipped day not a business
day. -/
def FirstBDs : PDateTime → List PDateTime → Prop
  | _, [] => True
  | cur, d :: t => ∃ i, d = addDaysDT cur i ∧ is_business_day d = true ∧
      (∀ j, j < i → is_business_day (addDaysDT cur j) = false) ∧
      FirstBDs (addDaysDT cur (i + 1)) t

/-! ## A sound checker for non-occurrence of a needle in a family of
strings

A shape is a list of atoms, each atom a finite list of alternative
strings; a string fits the shape when it is a concatenation of one choice
per atom.  The checker runs the standard suffix-matching automaton of the
needle over all choices; if it never reaches an accepting state, no string
fitting the shape contains the needle. -/

def nfaStep (n : List Char) (S : List Nat) (c : Char) : List Nat :=
  0 :: S.filterMap (fun k =>
    match n.get? k with
    | some ck => if ck == c then some (k + 1) else none
    | none => none)

def nfaRun (n : List Char) : List Nat → List Char → List Nat × Bool
  | S, [] => (S, false)
  | S, c :: cs =>
    let S' := nfaStep n S c
    let r := nfaRun n S' cs
    (r.1, S'.contains n.length || r.2)

/-- A string fits the shape `sh` when it splits into one alternative per
atom. -/
def fitsShape : List (List String) → List Char → Prop
  | [], l => l = []
  | vs :: rest, l => ∃ s ∈ vs, ∃ y, l = s.data ++ y ∧ fitsShape rest y

def runShape (n : List Char) : List Nat → List (List String) → List Nat × Bool
  | S, [] => (S, false)
  | S, vs :: rest =>
    let S' := ((vs.map (fun s => (nfaRun n S s.data).1)).flatten).dedup
    let f1 := vs.any (fun s => (nfaRun n S s.data).2)
    let r := runShape n S' rest
    (r.1, f1 || r.2)

def noSubShape (n : List Char) (sh : List (List String)) : Bool :=
  !(runShape n [0] sh).2 && !n.isEmpty

/-- Occurrence of `n` in `l`. -/
def OccL (n l : List Char) : Prop := ∃ s t, l = s ++ n ++ t

/-- The state invariant: `S` contains every `k` such that the first `k`
characters of the needle are a suffix of the processed prefix `P`. -/
def nfaInv (n P : List Char) (S : List Nat) : Prop :=
  ∀ k, k ≤ n.length → (∃ p, P = p ++ n.take k) → k ∈ S

/-! ## Shapes of the clock-dependent assistant replies of the scheduling
scenario -/

def wdNamesLower : List String :=
  ["monday", "tuesday", "wednesday", "thursday", "friday", "saturday", "sunday"]

def moAbbrLower : List String :=
  ["jan", "feb", "mar", "apr", "may", "jun", "jul", "aug", "sep", "oct", "nov", "dec"]

def moFullLower : List String :=
  ["january", "february", "march", "april", "may", "june", "july", "august",
   "september", "october", "november", "december"]

/-- The possible `strftime("%d")` outputs for a valid day of month. -/
def day2Lower : List String :=
  ["01", "02", "03", "04", "05", "06", "07", "08", "09", "10", "11", "12",
   "13", "14", "15", "16", "17", "18", "19", "20", "21", "22", "23", "24",
   "25", "26", "27", "28", "29", "30", "31"]

/-- Shape of one lower-cased `strftime("%A, %b %d")` date option. -/
def shapeOpt : List (List String) :=
  [wdNamesLower, [", "], moAbbrLower, [" "], day2Lower]

/-- Shape of the lower-cased phone-step reply (turn 3). -/
def shapeA3 : List (List String) :=
  [["got it, john! what day works best for the call? our next available days are: "]] ++
    shapeOpt ++ [[", "]] ++ shapeOpt ++ [[", "]] ++ shapeOpt

/-- Shape of the lower-cased date-step reply (turn 4). -/
def shapeA4 : List (List String) :=
  [["great, "], wdNamesLower, [", "], moFullLower, [" "], day2Lower,
   [" it is! what time works best - morning, afternoon, or evening?"]]

/-! ## The clock-dependent assistant replies of the scenario -/

/-- The phone-step assistant reply of the scenario (turn 3). -/
def schedA3 (now : PDateTime) : String :=
  "Got it, John! What day works best for the call? Our next available days are: " ++
    format_date_options now

/-- The date-step assistant reply of the scenario (turn 4). -/
def schedA4 (e : PDateTime) : String :=
  "Great, " ++ fmtABd e ++ " it is! What time works best - morning, afternoon, or evening?"

/-! ## The five-turn scheduling scenario -/

/-- The name-step assistant reply of the scenario (turn 2). -/
def schedA2 : String :=
  "Nice to meet you, John! What's the best phone number to reach you at?"

def msgScenario1 : List Msg := [⟨"user", "I want to schedule a call"⟩]

def msgScenario2 : List Msg :=
  msgScenario1 ++ [⟨"assistant", nameQuestion⟩, ⟨"user", "John"⟩]

def msgScenario3 : List Msg :=
  msgScenario2 ++ [⟨"assistant", schedA2⟩, ⟨"user", "5551234567"⟩]

def msgScenario4 (now e : PDateTime) : List Msg :=
  msgScenario3 ++ [⟨"assistant", schedA3 now⟩, ⟨"user", weekdayName.getD (weekdayDT e) ""⟩]

def msgScenario5 (now e : PDateTime) : List Msg :=
  msgScenario4 now e ++ [⟨"assistant", schedA4 e⟩, ⟨"user", "morning"⟩]

/-! ## Theorems -/

/-! ## Basic facts about the embedded matchers -/

theorem isPhoneSep_not_digit (c : Char) (h : isPhoneSep c = true) :
    c.isDigit = false := by
  have hm : c ∈ ['-', '.', ' ', '\t', '\n', '\r', '\x0b', '\x0c'] := by
    simp only [isPhoneSep, pyWS, Bool.or_eq_true, beq_iff_eq] at h
    simp only [List.mem_cons, List.not_mem_nil, or_false]
    tauto
  fin_cases hm <;> decide

theorem spanL_append (p : Char → Bool) (l : List Char) :
    (spanL p l).1 ++ (spanL p l).2 = l := by
  induction l with
  | nil => rfl
  | cons c t ih =>
    unfold spanL
    by_cases hc : p c <;> simp [hc, ih]

theorem spanL_all (p : Char → Bool) (l : List Char) :
    ∀ c ∈ (spanL p l).1, p c = true := by
  induction l with
  | nil => intro c hc; simp [spanL] at hc
  | cons a t ih =>
    intro c hc
    unfold spanL at hc
    by_cases ha : p a
    · simp only [ha, if_true, List.cons.injEq] at hc
      rcases List.mem_cons.mp hc with h | h
      · exact h ▸ ha
      · exact ih c h
    · simp [ha] at hc

theorem takeDigitsN_spec (n : Nat) : ∀ l d r, takeDigitsN n l = some (d, r) →
    d.length = n ∧ (∀ c ∈ d, c.isDigit = true) ∧ l = d ++ r := by
  induction n with
  | zero =>
    intro l d r h
    unfold takeDigitsN at h
    simp only [Option.some.injEq, Prod.mk.injEq] at h
    simp [← h.1, ← h.2]
  | succ n ih =>
    intro l d r h
    cases l with
    | nil => simp [takeDigitsN] at h
    | cons c t =>
      unfold takeDigitsN at h
      by_cases hc : c.isDigit
      · simp only [hc, if_true, Option.map_eq_some'] at h
        obtain ⟨⟨d', r'⟩, hp, hpr⟩ := h
        obtain ⟨h1, h2, h3⟩ := ih t d' r' hp
        simp only [Prod.mk.injEq] at hpr
        rw [← hpr.1, ← hpr.2]
        refine ⟨by simp [h1], ?_, by simp [h3]⟩
        intro x hx
        rcases List.mem_cons.mp hx with h | h
        · exact h ▸ hc
        · exact h2 x h
      · simp [hc] at h

theorem filter_digits_all (d : List Char) (h : ∀ c ∈ d, c.isDigit = true) :
    d.filter Char.isDigit = d :=
  List.filter_eq_self.mpr h

theorem p1D4_filter (r m : List Char) (h : p1D4 r = some m) :
    (m.filter Char.isDigit).length = 4 := by
  unfold p1D4 at h
  split at h
  · exact absurd h (by simp)
  · rename_i d rest heq
    obtain ⟨h1, h2, _⟩ := takeDigitsN_spec 4 r d rest heq
    have hd : (d.filter Char.isDigit).length = 4 := by
      rw [filter_digits_all _ h2]; omega
    split at h
    · split at h
      · exact absurd h (by simp)
      · simp only [Option.some.injEq] at h; exact h ▸ hd
    · simp only [Option.some.injEq] at h; exact h ▸ hd

theorem p1D3Tail_filter (r m : List Char) (h : p1D3Tail r = some m) :
    (m.filter Char.isDigit).length = 7 := by
  unfold p1D3Tail at h
  split at h
  · exact absurd h (by simp)
  · rename_i b r2 heq
    obtain ⟨h1, h2, _⟩ := takeDigitsN_spec 3 r b r2 heq
    have hb : (b.filter Char.isDigit).length = 3 := by
      rw [filter_digits_all _ h2]; omega
    split at h
    · split at h
      · rename_i hs
        split at h
        · rename_i m4 hm4
          simp only [Option.some.injEq] at h
          subst h
          have hsd := isPhoneSep_not_digit _ hs
          simp [List.filter_append, hb, hsd, p1D4_filter _ _ hm4]
        · simp only [Option.map_eq_some'] at h
          obtain ⟨m4, hm4, hm⟩ := h
          subst hm
          simp [List.filter_append, hb, p1D4_filter _ _ hm4]
      · simp only [Option.map_eq_some'] at h
        obtain ⟨m4, hm4, hm⟩ := h
        subst hm
        simp [List.filter_append, hb, p1D4_filter _ _ hm4]
    · simp only [Option.map_eq_some'] at h
      obtain ⟨m4, hm4, hm⟩ := h
      subst hm
      simp [List.filter_append, hb, p1D4_filter _ _ hm4]

theorem p1At_filter (prev : Option Char) (l m : List Char)
    (h : p1At prev l = some m) : (m.filter Char.isDigit).length = 10 := by
  unfold p1At at h
  split at h
  · exact absurd h (by simp)
  · split at h
    · exact absurd h (by simp)
    · rename_i a r1 heq
      obtain ⟨h1, h2, _⟩ := takeDigitsN_spec 3 l a r1 heq
      have ha : (a.filter Char.isDigit).length = 3 := by
        rw [filter_digits_all _ h2]; omega
      split at h
      · split at h
        · rename_i hs
          split at h
          · rename_i m7 hm7
            simp only [Option.some.injEq] at h
            subst h
            have hsd := isPhoneSep_not_digit _ hs
            simp [List.filter_append, ha, hsd, p1D3Tail_filter _ _ hm7]
          · simp only [Option.map_eq_some'] at h
            obtain ⟨m7, hm7, hm⟩ := h
            subst hm
            simp [List.filter_append, ha, p1D3Tail_filter _ _ hm7]
        · simp only [Option.map_eq_some'] at h
          obtain ⟨m7, hm7, hm⟩ := h
          subst hm
          simp [List.filter_append, ha, p1D3Tail_filter _ _ hm7]
      · simp only [Option.map_eq_some'] at h
        obtain ⟨m7, hm7, hm⟩ := h
        subst hm
        simp [List.filter_append, ha, p1D3Tail_filter _ _ hm7]

theorem p1Go_filter : ∀ (l : List Char) (prev : Option Char) (m : List Char),
    p1Go prev l = some m → (m.filter Char.isDigit).length = 10 := by
  intro l
  induction l with
  | nil => intro prev m h; simp [p1Go] at h
  | cons c t ih =>
    intro prev m h
    unfold p1Go at h
    cases e : p1At prev (c :: t) with
    | some m' =>
      rw [e] at h
      simp only [Option.some.injEq] at h
      exact h ▸ p1At_filter prev (c :: t) m' e
    | none =>
      rw [e] at h
      exact ih (some c) m h

theorem pyWS_not_digit (c : Char) (h : pyWS c = true) : c.isDigit = false := by
  have hm : c ∈ [' ', '\t', '\n', '\r', '\x0b', '\x0c'] := by
    simp only [pyWS, Bool.or_eq_true, beq_iff_eq] at h
    simp only [List.mem_cons, List.not_mem_nil, or_false]
    tauto
  fin_cases hm <;> decide

theorem filter_digits_none (d : List Char) (h : ∀ c ∈ d, c.isDigit = false) :
    d.filter Char.isDigit = [] := by
  induction d with
  | nil => rfl
  | cons c t ih =>
    have := h c (List.mem_cons_self c t)
    simp only [List.filter_cons, this, if_false, Bool.false_eq_true]
    exact ih (fun x hx => h x (List.mem_cons_of_mem c hx))

theorem p2Tail_filter (r m : List Char) (h : p2Tail r = some m) :
    (m.filter Char.isDigit).length = 4 := by
  unfold p2Tail at h
  split at h
  · split at h
    · rename_i hs
      split at h
      · rename_i d4 rr hq
        simp only [Option.some.injEq] at h
        subst h
        obtain ⟨hq1, hq2, _⟩ := takeDigitsN_spec 4 _ d4 rr hq
        have hsd := isPhoneSep_not_digit _ hs
        simp [List.filter_append, hsd, filter_digits_all _ hq2, hq1]
      · simp only [Option.map_eq_some'] at h
        obtain ⟨⟨d4, rr⟩, hm4, hm⟩ := h
        subst hm
        obtain ⟨hq1, hq2, _⟩ := takeDigitsN_spec 4 _ d4 rr hm4
        simp [filter_digits_all _ hq2, hq1]
    · simp only [Option.map_eq_some'] at h
      obtain ⟨⟨d4, rr⟩, hm4, hm⟩ := h
      subst hm
      obtain ⟨hq1, hq2, _⟩ := takeDigitsN_spec 4 _ d4 rr hm4
      simp [filter_digits_all _ hq2, hq1]
  · simp only [Option.map_eq_some'] at h
    obtain ⟨⟨d4, rr⟩, hm4, hm⟩ := h
    subst hm
    obtain ⟨hq1, hq2, _⟩ := takeDigitsN_spec 4 _ d4 rr hm4
    simp [filter_digits_all _ hq2, hq1]

theorem spanL_ws_filter (l : List Char) :
    ((spanL pyWS l).1.filter Char.isDigit) = [] :=
  filter_digits_none _ (fun c hc => pyWS_not_digit c (spanL_all pyWS l c hc))

theorem p2At_filter (l m : List Char) (h : p2At l = some m) :
    (m.filter Char.isDigit).length = 10 := by
  unfold p2At at h
  split at h
  · rename_i r0
    split at h
    · exact absurd h (by simp)
    · rename_i a r1 heq
      obtain ⟨h1, h2, _⟩ := takeDigitsN_spec 3 r0 a r1 heq
      split at h
      · split at h
        · exact absurd h (by simp)
        · rename_i b r4 heq2
          obtain ⟨g1, g2, _⟩ := takeDigitsN_spec 3 _ b r4 heq2
          simp only [Option.map_eq_some'] at h
          obtain ⟨mt, hmt, hm⟩ := h
          subst hm
          have hop : ('(' : Char).isDigit = false := by decide
          have hp : (')' : Char).isDigit = false := by decide
          simp [List.filter_append, hop, hp, spanL_ws_filter,
            filter_digits_all _ h2, filter_digits_all _ g2, h1, g1,
            p2Tail_filter _ _ hmt]
      · exact absurd h (by simp)
  · exact absurd h (by simp)

theorem p2Go_filter : ∀ (l m : List Char),
    p2Go l = some m → (m.filter Char.isDigit).length = 10 := by
  intro l
  induction l with
  | nil => intro m h; simp [p2Go] at h
  | cons c t ih =>
    intro m h
    unfold p2Go at h
    cases e : p2At (c :: t) with
    | some m' =>
      rw [e] at h
      simp only [Option.some.injEq] at h
      exact h ▸ p2At_filter (c :: t) m' e
    | none =>
      rw [e] at h
      exact ih m h

/-! ## Claim C9 -/

/-- C9: there is a conversation for which `extract_contact_info` returns a
last name but no first name: on the single user message "Hello World" the
bare-name pattern matches, the first capture "Hello" is rejected by the
stop-word filter, but the second capture still fills `last_name`, giving
`first_name = none`, `last_name = "World"` (and no email or phone). -/
theorem c9_lastname_without_firstname :
    extract_contact_info [⟨"user", "Hello World"⟩] =
      ⟨none, some "World", none, none⟩ := by rfl

/-! ## Claim C6 -/

/-- C6: the `phone` field of `extract_contact_info` is always either absent
or a string of exactly 10 decimal digits; and the three formats
"(555) 123-4567", "555-123-4567", "555.123.4567" all normalize to
"5551234567". -/
theorem c6_phone_ten_digits :
    (∀ messages : List Msg,
      (extract_contact_info messages).phone = none ∨
      ∃ s : String, (extract_contact_info messages).phone = some s ∧
        s.data.length = 10 ∧ s.data.all Char.isDigit = true) ∧
    (extract_contact_info [⟨"user", "(555) 123-4567"⟩]).phone = some "5551234567" ∧
    (extract_contact_info [⟨"user", "555-123-4567"⟩]).phone = some "5551234567" ∧
    (extract_contact_info [⟨"user", "555.123.4567"⟩]).phone = some "5551234567" := by
  refine ⟨?_, by rfl, by rfl, by rfl⟩
  intro messages
  unfold extract_contact_info
  simp only
  cases e1 : p1Go none (String.intercalate " "
      ((messages.filter (fun m => m.role == "user")).map Msg.content)).data with
  | some m =>
    right
    refine ⟨⟨m.filter Char.isDigit⟩, by simp [e1], ?_, ?_⟩
    · exact p1Go_filter _ _ _ e1
    · simp only [List.all_eq_true]
      intro c hc
      exact List.of_mem_filter hc
  | none =>
    cases e2 : p2Go (String.intercalate " "
        ((messages.filter (fun m => m.role == "user")).map Msg.content)).data with
    | some m =>
      right
      refine ⟨⟨m.filter Char.isDigit⟩, by simp [e1, e2], ?_, ?_⟩
      · exact p2Go_filter _ _ e2
      · simp only [List.all_eq_true]
        intro c hc
        exact List.of_mem_filter hc
    | none =>
      left
      simp [e1, e2]

/-! ## Claim C8 -/

/-- C8: the parsing, extraction and calendar components are total: a failed
match is a `none` / unset-fields / empty-list result, never an exception.
In this embedding every fallible Python operation (`strptime`,
`datetime.replace`) is `Option`-valued and every `ValueError` site of the
source sits inside a `try/except` that the embedding renders as `none`
propagation, so the functions are total by construction; this theorem
records the behaviour on the malformed inputs the claim names ("Feb 29"
parses in no format because 1900 is not a leap year; an arbitrary non-date
string matches no weekday name and no format) and on the edge cases of the
`%d` field ("12/\t7" and "12/ 0" raise `ValueError` in CPython because its
day regex ends in a literal-space-plus-nonzero-digit alternative, and the
embedding likewise yields `none`; "12/ 7" is the accepted space-padded
form). -/
theorem c8_no_exceptions :
    (∀ now : PDateTime, parse_user_date now "Feb 29" = none) ∧
    (∀ now : PDateTime, parse_user_date now "not a date" = none) ∧
    (∀ now : PDateTime, parse_user_date now "12/\t7" = none) ∧
    (∀ now : PDateTime, parse_user_date now "12/ 0" = none) ∧
    detect_insurance_topics "hello there, how are you?" = [] ∧
    extract_contact_info [⟨"user", "][;;; @@!!"⟩] = ⟨none, none, none, none⟩ ∧
    (∀ dt : PDateTime, is_business_day dt = true ∨ is_business_day dt = false) := by
  refine ⟨fun now => rfl, fun now => rfl, fun now => rfl, fun now => rfl, rfl, rfl,
    fun dt => ?_⟩
  cases h : is_business_day dt
  · right; rfl
  · left; rfl

/-! ## Claim C7 -/

/-- C7 counterexample: the inferencer is not a function of the history
alone — it also reads the clock.  On the identical five-message history
(the phone step of the scheduling flow), running it with today =
2025-06-02 and today = 2025-06-09 yields different replies (the listed
business-day options differ), contradicting "identical history always
yields the identical result". -/
theorem c7_clock_dependence :
    detect_scheduling_context ⟨⟨2025, 6, 2⟩, 0⟩
      [⟨"user", "I want to schedule a call"⟩,
       ⟨"assistant", "I'd be happy to connect you with a licensed agent! First, what's your name?"⟩,
       ⟨"user", "John"⟩,
       ⟨"assistant", "Nice to meet you, John! What's the best phone number to reach you at?"⟩,
       ⟨"user", "5551234567"⟩] ≠
    detect_scheduling_context ⟨⟨2025, 6, 9⟩, 0⟩
      [⟨"user", "I want to schedule a call"⟩,
       ⟨"assistant", "I'd be happy to connect you with a licensed agent! First, what's your name?"⟩,
       ⟨"user", "John"⟩,
       ⟨"assistant", "Nice to meet you, John! What's the best phone number to reach you at?"⟩,
       ⟨"user", "5551234567"⟩] := by decide

/-- C7 (amended): the inferencer is a pure function of the conversation
history together with the current clock value: two evaluations on an
identical history and identical clock yield the identical reply (or `none`
in both). -/
theorem c7_deterministic (now now' : PDateTime) (messages messages' : List Msg)
    (h1 : now = now') (h2 : messages = messages') :
    detect_scheduling_context now messages =
      detect_scheduling_context now' messages' := by
  rw [h1, h2]

/-- Witness for `c7_deterministic` at a concrete input. -/
theorem c7_deterministic_witness :
    detect_scheduling_context ⟨⟨2025, 6, 2⟩, 0⟩ [⟨"user", "hi"⟩] =
      detect_scheduling_context ⟨⟨2025, 6, 2⟩, 0⟩ [⟨"user", "hi"⟩] :=
  c7_deterministic _ _ _ _ rfl rfl

/-! ## Claim C5 -/

/-- C5 counterexample: `should_suggest_agent` tests the *last message of
either role*, not "the latest user message".  In the conversation
`[user "hi", assistant "you seem confused"]` with no topics, the latest
user message is "hi" (no decision-paralysis phrase), only one user message
exists and no topics were found — so the claim says `false` — but the code
checks `messages[-1]` (the assistant message, which contains "confused")
and returns `true`. -/
theorem c5_last_message_not_user_message :
    should_suggest_agent
        [⟨"user", "hi"⟩, ⟨"assistant", "you seem confused"⟩] [] = true ∧
    ¬(4 ≤ (([⟨"user", "hi"⟩, ⟨"assistant", "you seem confused"⟩] : List Msg).filter
          (fun m => m.role == "user")).length ∨
      3 ≤ ([] : List String).length ∨
      ∃ s ∈ intentSignals, pyIn s (lowerStr "hi") = true) := by
  constructor
  · rfl
  · decide

/-- C5 (amended): for duplicate-free `topics`, `should_suggest_agent`
returns `true` iff the user-message count is at least 4, or at least 3
distinct topics accumulated, or the latest message of the conversation
(of either role; the empty string for an empty conversation) contains one
of the fixed decision-paralysis phrases. -/
theorem c5_should_suggest_iff (messages : List Msg) (topics : List String)
    (h : topics.Nodup) :
    should_suggest_agent messages topics = true ↔
      (4 ≤ (messages.filter (fun m => m.role == "user")).length ∨
       3 ≤ topics.dedup.length ∨
       ∃ s ∈ intentSignals,
         pyIn s (match messages.getLast? with
                 | some m => lowerStr m.content
                 | none => "") = true) := by
  rw [List.dedup_eq_self.mpr h]
  unfold should_suggest_agent
  by_cases h4 : 4 ≤ (messages.filter (fun m => m.role == "user")).length
  · simp [h4]
  · rw [if_neg h4]
    by_cases h3 : 3 ≤ topics.length
    · simp [h3, h4]
    · rw [if_neg h3]
      simp only [h4, h3, false_or]
      constructor
      · intro hh
        split at hh
        · rename_i hany
          simpa [List.any_eq_true] using hany
        · exact absurd hh (by simp)
      · intro hh
        have : intentSignals.any (fun s =>
            pyIn s (match messages.getLast? with
                    | some m => lowerStr m.content
                    | none => "")) = true := by
          simpa [List.any_eq_true] using hh
        simp [this]

/-- Witness for `c5_should_suggest_iff` at a concrete input. -/
theorem c5_should_suggest_iff_witness :
    ([ "Medicare" ] : List String).Nodup ∧
    (should_suggest_agent [⟨"user", "what should i do"⟩] ["Medicare"] = true ↔
      (4 ≤ (([⟨"user", "what should i do"⟩] : List Msg).filter
            (fun m => m.role == "user")).length ∨
       3 ≤ (["Medicare"] : List String).dedup.length ∨
       ∃ s ∈ intentSignals,
         pyIn s (match ([⟨"user", "what should i do"⟩] : List Msg).getLast? with
                 | some m => lowerStr m.content
                 | none => "") = true)) :=
  ⟨by decide, c5_should_suggest_iff _ _ (by decide)⟩

/-! ## Claim C4 -/

/-- C4: the already-confirmed guard.  For every conversation of at least
two messages ending in a user message, if the most recent assistant
message among the earlier messages contains "perfect" or "agent will call"
(case-insensitively), the inferencer returns `none`, whatever the latest
user message says. -/
theorem c4_confirmed_guard (now : PDateTime) (init : List Msg) (u : Msg)
    (_hu : u.role = "user") (h2 : 2 ≤ (init ++ [u]).length) (a : Msg)
    (ha : init.reverse.find? (fun m => m.role == "assistant") = some a)
    (hmark : pyIn "perfect" (lowerStr a.content) = true ∨
             pyIn "agent will call" (lowerStr a.content) = true) :
    detect_scheduling_context now (init ++ [u]) = none := by
  have hlast : lastAssistantMsg (init ++ [u]) = some (lowerStr a.content) := by
    unfold lastAssistantMsg
    rw [List.dropLast_concat, ha]
    rfl
  have hn1 : ¬ (init ++ [u]).length < 1 := by omega
  have hn2 : ¬ (init ++ [u]).length < 2 := by omega
  have hne1 : ((init ++ [u]).length == 1) = false := by
    simp only [beq_eq_false_iff_ne, ne_eq]
    omega
  have hlane : (lowerStr a.content == "") = false := by
    cases e : lowerStr a.content == ""
    · rfl
    · exfalso
      have heq := eq_of_beq e
      rcases hmark with hm | hm <;> rw [heq] at hm <;> exact absurd hm (by decide)
  unfold detect_scheduling_context
  rw [if_neg hn1, hne1]
  simp only [Bool.false_and, Bool.false_eq_true, if_false, if_neg hn2, hlast]
  rcases hmark with hm | hm <;> simp [hm, hlane]

/-- Witness for `c4_confirmed_guard` at a concrete input. -/
theorem c4_confirmed_guard_witness :
    detect_scheduling_context ⟨⟨2025, 6, 2⟩, 0⟩
      ([⟨"user", "I want to schedule a call"⟩,
        ⟨"assistant", "Perfect, John! An agent will call you in the morning. Is there anything else I can help you with?"⟩] ++
       [⟨"user", "schedule another call please"⟩]) = none :=
  c4_confirmed_guard ⟨⟨2025, 6, 2⟩, 0⟩
    [⟨"user", "I want to schedule a call"⟩,
     ⟨"assistant", "Perfect, John! An agent will call you in the morning. Is there anything else I can help you with?"⟩]
    ⟨"user", "schedule another call please"⟩ (by rfl) (by decide)
    ⟨"assistant", "Perfect, John! An agent will call you in the morning. Is there anything else I can help you with?"⟩
    (by decide) (Or.inl (by decide))

/-! ## Calendar arithmetic -/

theorem daysInMonth_pos (y m : Nat) : 1 ≤ daysInMonth y m := by
  unfold daysInMonth
  split
  · split <;> omega
  · split <;> omega

theorem validDate_mk (y m d : Nat) : validDate ⟨y, m, d⟩ ↔
    (1 ≤ y ∧ 1 ≤ m ∧ m ≤ 12 ∧ 1 ≤ d ∧ d ≤ daysInMonth y m) := Iff.rfl

theorem nextDate_mk (y m d : Nat) : nextDate ⟨y, m, d⟩ =
    if d < daysInMonth y m then ⟨y, m, d + 1⟩
    else if m < 12 then ⟨y, m + 1, 1⟩ else ⟨y + 1, 1, 1⟩ := rfl

theorem rataDie_mk (y m d : Nat) : rataDie ⟨y, m, d⟩ =
    (if m ≤ 2 then y - 1 else y) / 400 * 146097 +
      ((if m ≤ 2 then y - 1 else y) % 400 * 365 +
        (if m ≤ 2 then y - 1 else y) % 400 / 4 -
        (if m ≤ 2 then y - 1 else y) % 400 / 100 +
        ((153 * (if 2 < m then m - 3 else m + 9) + 2) / 5 + d - 1)) := rfl

theorem validDate_nextDate (t : PDate) (h : validDate t) :
    validDate (nextDate t) := by
  obtain ⟨y, m, d⟩ := t
  rw [validDate_mk] at h
  rw [nextDate_mk]
  by_cases hlt : d < daysInMonth y m
  · rw [if_pos hlt, validDate_mk]
    refine ⟨h.1, h.2.1, h.2.2.1, by omega, by omega⟩
  · rw [if_neg hlt]
    by_cases hm12 : m < 12
    · rw [if_pos hm12, validDate_mk]
      exact ⟨h.1, by omega, by omega, by omega, daysInMonth_pos y (m + 1)⟩
    · rw [if_neg hm12, validDate_mk]
      exact ⟨by omega, by omega, by omega, by omega, daysInMonth_pos (y + 1) 1⟩

theorem isLeap_iff (y : Nat) : isLeap y = true ↔
    (y % 4 = 0 ∧ (¬ y % 100 = 0 ∨ y % 400 = 0)) := by
  unfold isLeap
  simp [Bool.and_eq_true, Bool.or_eq_true, beq_iff_eq]

theorem daysInMonth_eq (y m : Nat) : daysInMonth y m =
    if m = 2 then (if isLeap y then 29 else 28)
    else if ((m = 4 ∨ m = 6) ∨ m = 9) ∨ m = 11 then 30 else 31 := by
  unfold daysInMonth
  simp only [beq_iff_eq, Bool.or_eq_true]

/-- The February-to-March step of the day-number formula: rolling from the
last day of February of year `y` to March 1 advances the number by one.
Stated over the components; `omega` decides it (Presburger with division
by constants). -/
theorem rataDie_feb_mar (y : Nat) (hy : 1 ≤ y) :
    rataDie ⟨y, 3, 1⟩ = rataDie ⟨y, 2, if isLeap y then 29 else 28⟩ + 1 := by
  rw [rataDie_mk, rataDie_mk]
  norm_num
  by_cases hl : isLeap y = true
  · rw [if_pos hl]
    rw [isLeap_iff] at hl
    omega
  · rw [if_neg hl]
    have hl' : ¬ (y % 4 = 0 ∧ (¬ y % 100 = 0 ∨ y % 400 = 0)) := by
      rw [← isLeap_iff]
      exact hl
    omega

theorem rataDie_nextDate (t : PDate) (h : validDate t) :
    rataDie (nextDate t) = rataDie t + 1 := by
  obtain ⟨y, m, d⟩ := t
  rw [validDate_mk] at h
  obtain ⟨hy, hm1, hm2, hd1, hd2⟩ := h
  rw [nextDate_mk]
  by_cases hlt : d < daysInMonth y m
  · rw [if_pos hlt, rataDie_mk, rataDie_mk]
    by_cases hm : m ≤ 2
    · rw [if_pos hm, if_neg (by omega : ¬ 2 < m)]
      omega
    · rw [if_neg hm, if_pos (by omega : 2 < m)]
      omega
  · rw [if_neg hlt]
    have hdd : d = daysInMonth y m := by omega
    rw [daysInMonth_eq] at hdd
    by_cases hm12 : m < 12
    · rw [if_pos hm12]
      interval_cases m
      · rw [if_neg (by omega)] at hdd
        rw [if_neg (by omega)] at hdd
        subst hdd
        rw [rataDie_mk, rataDie_mk]
        norm_num
        omega
      · rw [if_pos rfl] at hdd
        subst hdd
        exact rataDie_feb_mar y hy
      · rw [if_neg (by omega), if_neg (by omega)] at hdd
        subst hdd
        rw [rataDie_mk, rataDie_mk]
        norm_num
        omega
      · rw [if_neg (by omega), if_pos (by omega)] at hdd
        subst hdd
        rw [rataDie_mk, rataDie_mk]
        norm_num
        omega
      · rw [if_neg (by omega), if_neg (by omega)] at hdd
        subst hdd
        rw [rataDie_mk, rataDie_mk]
        norm_num
        omega
      · rw [if_neg (by omega), if_pos (by omega)] at hdd
        subst hdd
        rw [rataDie_mk, rataDie_mk]
        norm_num
        omega
      · rw [if_neg (by omega), if_neg (by omega)] at hdd
        subst hdd
        rw [rataDie_mk, rataDie_mk]
        norm_num
        omega
      · rw [if_neg (by omega), if_neg (by omega)] at hdd
        subst hdd
        rw [rataDie_mk, rataDie_mk]
        norm_num
        omega
      · rw [if_neg (by omega), if_pos (by omega)] at hdd
        subst hdd
        rw [rataDie_mk, rataDie_mk]
        norm_num
        omega
      · rw [if_neg (by omega), if_neg (by omega)] at hdd
        subst hdd
        rw [rataDie_mk, rataDie_mk]
        norm_num
        omega
      · rw [if_neg (by omega), if_pos (by omega)] at hdd
        subst hdd
        rw [rataDie_mk, rataDie_mk]
        norm_num
        omega
    · have hm' : m = 12 := by omega
      subst hm'
      rw [if_neg hm12]
      rw [if_neg (by omega), if_neg (by omega)] at hdd
      subst hdd
      rw [rataDie_mk, rataDie_mk]
      norm_num
      omega

theorem validDate_addDays (t : PDate) (h : validDate t) (n : Nat) :
    validDate (addDays t n) := by
  induction n with
  | zero => exact h
  | succ n ih => exact validDate_nextDate _ ih

theorem rataDie_addDays (t : PDate) (h : validDate t) (n : Nat) :
    rataDie (addDays t n) = rataDie t + n := by
  induction n with
  | zero => show rataDie t = rataDie t + 0; omega
  | succ n ih =>
    have hs : addDays t (n + 1) = nextDate (addDays t n) := by simp only [addDays]
    rw [hs, rataDie_nextDate _ (validDate_addDays t h n), ih]
    omega

theorem addDays_add (t : PDate) (a b : Nat) :
    addDays t (a + b) = addDays (addDays t a) b := by
  induction b with
  | zero => rfl
  | succ b ih => show nextDate (addDays t (a + b)) = _; rw [ih]; rfl

theorem validDT_addDaysDT (dt : PDateTime) (h : validDT dt) (n : Nat) :
    validDT (addDaysDT dt n) := validDate_addDays dt.date h n

theorem addDaysDT_add (dt : PDateTime) (a b : Nat) :
    addDaysDT dt (a + b) = addDaysDT (addDaysDT dt a) b := by
  unfold addDaysDT
  rw [addDays_add]

theorem dateLt_iff (a b : PDate) : dateLt a b = true ↔
    (a.year < b.year ∨ (a.year = b.year ∧
      (a.month < b.month ∨ (a.month = b.month ∧ a.day < b.day)))) := by
  unfold dateLt
  simp [Bool.or_eq_true, Bool.and_eq_true, beq_iff_eq, decide_eq_true_eq]

theorem dateLt_mk (y1 m1 d1 y2 m2 d2 : Nat) :
    dateLt ⟨y1, m1, d1⟩ ⟨y2, m2, d2⟩ = true ↔
      (y1 < y2 ∨ (y1 = y2 ∧ (m1 < m2 ∨ (m1 = m2 ∧ d1 < d2)))) := by
  rw [dateLt_iff]

theorem dateLt_nextDate (t : PDate) (h : validDate t) :
    dateLt t (nextDate t) = true := by
  obtain ⟨y, m, d⟩ := t
  rw [nextDate_mk]
  by_cases hlt : d < daysInMonth y m
  · rw [if_pos hlt, dateLt_mk]
    omega
  · rw [if_neg hlt]
    by_cases hm12 : m < 12
    · rw [if_pos hm12, dateLt_mk]
      omega
    · rw [if_neg hm12, dateLt_mk]
      omega

theorem dateLt_trans (a b c : PDate) (h1 : dateLt a b = true)
    (h2 : dateLt b c = true) : dateLt a c = true := by
  rw [dateLt_iff] at *
  omega

theorem dateLt_asymm (a b : PDate) (h : dateLt a b = true) :
    dateLt b a = false := by
  rw [dateLt_iff] at h
  cases e : dateLt b a
  · rfl
  · rw [dateLt_iff] at e
    omega

theorem dateLt_irrefl (a : PDate) : dateLt a a = false := by
  cases e : dateLt a a
  · rfl
  · rw [dateLt_iff] at e
    omega

theorem dateLt_ne (a b : PDate) (h : dateLt a b = true) : ¬ a = b := by
  intro he
  subst he
  rw [dateLt_irrefl] at h
  exact absurd h (by simp)

theorem dateLt_addDays (t : PDate) (h : validDate t) (a b : Nat) (hab : a < b) :
    dateLt (addDays t a) (addDays t b) = true := by
  have key : ∀ (s : PDate), validDate s → ∀ k, dateLt s (addDays s (k + 1)) = true := by
    intro s hs k
    induction k with
    | zero => exact dateLt_nextDate s hs
    | succ k ih =>
      have : addDays s (k + 1 + 1) = nextDate (addDays s (k + 1)) := rfl
      rw [this]
      exact dateLt_trans _ _ _ ih
        (dateLt_nextDate _ (validDate_addDays s hs (k + 1)))
  have hb : b = a + ((b - a - 1) + 1) := by omega
  rw [hb, addDays_add]
  exact key (addDays t a) (validDate_addDays t h a) _

/-- Comparison of two `datetime`s with the same time of day obtained by
adding days to the same valid start is just comparison of the day
offsets. -/
theorem dtLt_addDaysDT (now : PDateTime) (h : validDT now) (a b : Nat) :
    dtLt (addDaysDT now a) (addDaysDT now b) = decide (a < b) := by
  rcases Nat.lt_trichotomy a b with hlt | heq | hgt
  · unfold dtLt
    rw [show (addDaysDT now a).date = addDays now.date a from rfl,
      show (addDaysDT now b).date = addDays now.date b from rfl,
      dateLt_addDays now.date h a b hlt]
    simp [hlt]
  · subst heq
    unfold dtLt
    rw [dateLt_irrefl]
    simp
  · unfold dtLt
    have hasym := dateLt_asymm _ _ (dateLt_addDays now.date h b a hgt)
    rw [show (addDaysDT now a).date = addDays now.date a from rfl,
      show (addDaysDT now b).date = addDays now.date b from rfl, hasym]
    have hne : ¬ addDays now.date a = addDays now.date b := by
      intro he
      have := dateLt_addDays now.date h b a hgt
      rw [he, dateLt_irrefl] at this
      exact absurd this (by simp)
    simp [hne, beq_eq_false_iff_ne.mpr hne]
    omega

theorem holiday_mem_nums (dt : PDateTime)
    (hh : US_HOLIDAYS.contains (dt.date.year, dt.date.month, dt.date.day) = true) :
    rataDie dt.date ∈ holidayNums := by
  have hm : (dt.date.year, dt.date.month, dt.date.day) ∈ US_HOLIDAYS := by
    simpa [List.contains] using hh
  have hmem := List.mem_map_of_mem
    (fun t : Nat × Nat × Nat => rataDie ⟨t.1, t.2.1, t.2.2⟩) hm
  simp only at hmem
  exact hmem

/-- No two distinct holidays are within six days of each other. -/
theorem holiday_gap : ∀ a ∈ holidayNums, ∀ b ∈ holidayNums, a < b → 7 ≤ b - a := by
  decide

theorem holidayNums_nodup : holidayNums.Nodup := by decide

theorem holidayNums_length : holidayNums.length = 23 := by decide

/-- `weekday` after adding days to a valid date. -/
theorem weekday_addDays (t : PDate) (h : validDate t) (n : Nat) :
    weekday (addDays t n) = (rataDie t + n + 2) % 7 := by
  unfold weekday
  rw [rataDie_addDays t h n]

/-- In any 168 consecutive days starting at a valid date there is a
business day: the window contains 24 Mondays, and the 23-entry holiday
table cannot cover all of them. -/
theorem exists_business_in_window (cur : PDateTime) (hv : validDT cur) :
    ∃ i, i < 168 ∧ is_business_day (addDaysDT cur i) = true := by
  by_contra hcon
  push_neg at hcon
  set N := rataDie cur.date with hN
  set j := (7 - (N + 2) % 7) % 7 with hj
  have hj7 : j < 7 := by omega
  have hmon : ∀ k, (N + (j + 7 * k) + 2) % 7 = 0 := by
    intro k
    omega
  have hhol : ∀ k, k < 24 → N + (j + 7 * k) ∈ holidayNums := by
    intro k hk
    have hi : j + 7 * k < 168 := by omega
    have hbus := hcon (j + 7 * k) hi
    have hwk : weekdayDT (addDaysDT cur (j + 7 * k)) = 0 := by
      unfold weekdayDT
      rw [show (addDaysDT cur (j + 7 * k)).date = addDays cur.date (j + 7 * k) from rfl]
      rw [weekday_addDays cur.date hv]
      exact hmon k
    unfold is_business_day at hbus
    rw [hwk] at hbus
    rw [if_neg (by omega)] at hbus
    by_cases hc : US_HOLIDAYS.contains
        ((addDaysDT cur (j + 7 * k)).date.year,
         (addDaysDT cur (j + 7 * k)).date.month,
         (addDaysDT cur (j + 7 * k)).date.day) = true
    · have := holiday_mem_nums _ hc
      rw [show (addDaysDT cur (j + 7 * k)).date = addDays cur.date (j + 7 * k) from rfl,
        rataDie_addDays cur.date hv] at this
      exact this
    · rw [if_neg (by simpa using hc)] at hbus
      exact absurd hbus (by simp)
  -- pigeonhole: 24 distinct Mondays inside a 23-element list
  have hinj : Function.Injective (fun k : Fin 24 => N + (j + 7 * (k : Nat))) := by
    intro x y hxy
    simp only at hxy
    have : (x : Nat) = (y : Nat) := by omega
    exact Fin.ext this
  have hsub : (Finset.univ : Finset (Fin 24)).image
      (fun k : Fin 24 => N + (j + 7 * (k : Nat))) ⊆ holidayNums.toFinset := by
    intro x hx
    rcases Finset.mem_image.mp hx with ⟨k, _, hk⟩
    rw [← hk]
    exact List.mem_toFinset.mpr (hhol k k.isLt)
  have hcard : ((Finset.univ : Finset (Fin 24)).image
      (fun k : Fin 24 => N + (j + 7 * (k : Nat)))).card = 24 := by
    rw [Finset.card_image_of_injective _ hinj]
    simp
  have hle := Finset.card_le_card hsub
  rw [hcard] at hle
  have : holidayNums.toFinset.card ≤ 23 := by
    calc holidayNums.toFinset.card ≤ holidayNums.length := List.toFinset_card_le _
    _ = 23 := holidayNums_length
  omega

/-! ## The collecting loop: specification and uniqueness -/

theorem addDays_zero (t : PDate) : addDays t 0 = t := by simp only [addDays]

theorem addDaysDT_zero (dt : PDateTime) : addDaysDT dt 0 = dt := by
  unfold addDaysDT
  rw [addDays_zero]

theorem collectBD_zero (fuel : Nat) (cur : PDateTime) :
    collectBD fuel cur 0 = [] := by
  cases fuel <;> simp [collectBD]

theorem collectBD_step : ∀ (i fuel : Nat) (cur : PDateTime) (n : Nat),
    i + 1 ≤ fuel →
    is_business_day (addDaysDT cur i) = true →
    (∀ j, j < i → is_business_day (addDaysDT cur j) = false) →
    collectBD fuel cur (n + 1) =
      addDaysDT cur i :: collectBD (fuel - (i + 1)) (addDaysDT cur (i + 1)) n := by
  intro i
  induction i with
  | zero =>
    intro fuel cur n hf hb _
    cases fuel with
    | zero => omega
    | succ f =>
      rw [addDaysDT_zero] at hb
      show (if is_business_day cur = true then
          cur :: collectBD f (addDaysDT cur 1) n
        else collectBD f (addDaysDT cur 1) (n + 1)) = _
      rw [if_pos hb, addDaysDT_zero]
      have : f + 1 - (0 + 1) = f := by omega
      rw [this]
  | succ i ih =>
    intro fuel cur n hf hb hmin
    cases fuel with
    | zero => omega
    | succ f =>
      have h0 : is_business_day cur = false := by
        have := hmin 0 (by omega)
        rwa [addDaysDT_zero] at this
      show (if is_business_day cur = true then
          cur :: collectBD f (addDaysDT cur 1) n
        else collectBD f (addDaysDT cur 1) (n + 1)) = _
      rw [h0]
      simp only [Bool.false_eq_true, if_false]
      have e1 : addDaysDT cur (i + 1) = addDaysDT (addDaysDT cur 1) i := by
        rw [← addDaysDT_add, Nat.add_comm]
      have e2 : addDaysDT cur (i + 1 + 1) = addDaysDT (addDaysDT cur 1) (i + 1) := by
        rw [← addDaysDT_add]
        congr 1
        omega
      have e3 : f + 1 - (i + 1 + 1) = f - (i + 1) := by omega
      rw [e1, e2, e3]
      have hb' : is_business_day (addDaysDT (addDaysDT cur 1) i) = true := by
        rw [← e1]
        exact hb
      refine ih f (addDaysDT cur 1) n (by omega) hb' ?_
      intro j hj
      have := hmin (j + 1) (by omega)
      rw [show addDaysDT cur (j + 1) = addDaysDT (addDaysDT cur 1) j from by
        rw [← addDaysDT_add, Nat.add_comm]] at this
      exact this

theorem collectBD_spec : ∀ (need : Nat) (cur : PDateTime) (fuel : Nat),
    validDT cur → 168 * need ≤ fuel →
    (collectBD fuel cur need).length = need ∧
      FirstBDs cur (collectBD fuel cur need) := by
  intro need
  induction need with
  | zero =>
    intro cur fuel hv hf
    rw [collectBD_zero]
    exact ⟨rfl, trivial⟩
  | succ n ih =>
    intro cur fuel hv hf
    have hex : ∃ i, is_business_day (addDaysDT cur i) = true := by
      obtain ⟨i, _, hb⟩ := exists_business_in_window cur hv
      exact ⟨i, hb⟩
    set i0 := Nat.find hex with hi0def
    have hi0 : is_business_day (addDaysDT cur i0) = true := Nat.find_spec hex
    have hmin : ∀ j, j < i0 → is_business_day (addDaysDT cur j) = false := by
      intro j hj
      have := Nat.find_min hex hj
      exact Bool.not_eq_true _ ▸ (by simpa using this)
    have hi0lt : i0 < 168 := by
      obtain ⟨w, hw, hwb⟩ := exists_business_in_window cur hv
      have : i0 ≤ w := Nat.find_min' hex hwb
      omega
    rw [collectBD_step i0 fuel cur n (by omega) hi0 hmin]
    have hvn : validDT (addDaysDT cur (i0 + 1)) := validDT_addDaysDT cur hv (i0 + 1)
    have hfn : 168 * n ≤ fuel - (i0 + 1) := by
      have : 168 * (n + 1) = 168 * n + 168 := by ring
      omega
    obtain ⟨hlen, hfbd⟩ := ih (addDaysDT cur (i0 + 1)) (fuel - (i0 + 1)) hvn hfn
    refine ⟨by simpa using hlen, ?_⟩
    exact ⟨i0, rfl, hi0, hmin, hfbd⟩

theorem firstBDs_unique : ∀ (l l' : List PDateTime) (cur : PDateTime),
    FirstBDs cur l → FirstBDs cur l' → l.length = l'.length → l = l' := by
  intro l
  induction l with
  | nil =>
    intro l' cur _ _ hlen
    cases l' with
    | nil => rfl
    | cons d t => simp at hlen
  | cons d t ih =>
    intro l' cur h1 h2 hlen
    cases l' with
    | nil => simp at hlen
    | cons d' t' =>
      obtain ⟨i, hdi, hbi, hmini, hrest⟩ := h1
      obtain ⟨i', hdi', hbi', hmini', hrest'⟩ := h2
      have hii : i = i' := by
        rcases Nat.lt_trichotomy i i' with hlt | heq | hgt
        · have := hmini' i hlt
          rw [← hdi] at this
          rw [this] at hbi
          exact absurd hbi (by simp)
        · exact heq
        · have := hmini i' hgt
          rw [← hdi'] at this
          rw [this] at hbi'
          exact absurd hbi' (by simp)
      subst hii
      have hdd : d = d' := by rw [hdi, hdi']
      subst hdd
      have : t = t' := ih t' (addDaysDT cur (i + 1)) hrest hrest' (by simpa using hlen)
      rw [this]

theorem firstBDs_business : ∀ (l : List PDateTime) (cur : PDateTime),
    FirstBDs cur l → ∀ dt ∈ l, is_business_day dt = true := by
  intro l
  induction l with
  | nil => intro cur _ dt hdt; simp at hdt
  | cons d t ih =>
    intro cur h dt hdt
    obtain ⟨i, hdi, hbi, _, hrest⟩ := h
    rcases List.mem_cons.mp hdt with he | ht
    · exact he ▸ hbi
    · exact ih (addDaysDT cur (i + 1)) hrest dt ht

theorem firstBDs_offsets : ∀ (l : List PDateTime) (cur : PDateTime),
    FirstBDs cur l →
    ∃ off : List Nat, off.length = l.length ∧
      l = off.map (addDaysDT cur) ∧ List.Chain' (· < ·) off ∧
      (∀ j, (∀ o ∈ off, o ≠ j) → (∃ o ∈ off, j < o) →
        is_business_day (addDaysDT cur j) = false) := by
  intro l
  induction l with
  | nil =>
    intro cur _
    refine ⟨[], rfl, rfl, List.chain'_nil, ?_⟩
    intro j _ hex
    simp at hex
  | cons d t ih =>
    intro cur h
    obtain ⟨i, hdi, hbi, hmini, hrest⟩ := h
    obtain ⟨offt, hlen, hmap, hchain, hgap⟩ := ih (addDaysDT cur (i + 1)) hrest
    refine ⟨i :: offt.map (fun o => i + 1 + o), by simpa using hlen, ?_, ?_, ?_⟩
    · simp only [List.map_cons, List.map_map, List.cons.injEq]
      refine ⟨hdi, ?_⟩
      rw [hmap]
      apply List.map_congr_left
      intro o _
      show addDaysDT (addDaysDT cur (i + 1)) o = addDaysDT cur (i + 1 + o)
      rw [← addDaysDT_add]
    · rw [List.chain'_cons']
      constructor
      · intro y hy
        cases offt with
        | nil => simp at hy
        | cons o os =>
          simp only [List.map_cons, List.head?_cons, Option.mem_def,
            Option.some.injEq] at hy
          omega
      · rw [List.chain'_map]
        exact hchain.imp (by intro a b hab; omega)
    · intro j hne hex
      by_cases hji : j < i
      · exact hmini j hji
      · have hji' : i < j := by
          rcases Nat.lt_trichotomy j i with h1 | h1 | h1
          · omega
          · exact absurd h1.symm (hne i (List.mem_cons_self i _))
          · exact h1
        have hj' : j = i + 1 + (j - i - 1) := by omega
        rw [hj', addDaysDT_add]
        apply hgap
        · intro o ho heq
          have : i + 1 + o = j := by omega
          exact hne (i + 1 + o)
            (List.mem_cons_of_mem _ (List.mem_map_of_mem _ ho)) this
        · obtain ⟨o, ho, hjo⟩ := hex
          rcases List.mem_cons.mp ho with he | hm
          · omega
          · rcases List.mem_map.mp hm with ⟨o', ho', heo⟩
            exact ⟨o', ho', by omega⟩

/-! ## Claim C2 -/

/-- C2: for every valid clock value, `count ≥ 1` and `minDaysAhead`,
`get_next_business_days` returns exactly `count` dates, all business days,
strictly increasing, each at least `today + minDaysAhead`, and with every
skipped day — between the start of the scan and the first result, and
between consecutive results — not a business day (witnessed by the offset
list `off`). -/
theorem c2_next_business_days (now : PDateTime) (count minAhead : Nat)
    (hv : validDT now) (_hc : 1 ≤ count) :
    (get_next_business_days now count minAhead).length = count ∧
    (∀ dt ∈ get_next_business_days now count minAhead,
      is_business_day dt = true) ∧
    (∀ dt ∈ get_next_business_days now count minAhead,
      rataDie now.date + minAhead ≤ rataDie dt.date) ∧
    List.Chain' (fun a b => rataDie a.date < rataDie b.date)
      (get_next_business_days now count minAhead) ∧
    ∃ off : List Nat, List.Chain' (· < ·) off ∧
      get_next_business_days now count minAhead =
        off.map (addDaysDT (addDaysDT now minAhead)) ∧
      (∀ j, (∀ o ∈ off, o ≠ j) → (∃ o ∈ off, j < o) →
        is_business_day (addDaysDT (addDaysDT now minAhead) j) = false) := by
  have hvs : validDT (addDaysDT now minAhead) := validDT_addDaysDT now hv minAhead
  obtain ⟨hlen, hfbd⟩ :=
    collectBD_spec count (addDaysDT now minAhead) (168 * count) hvs (le_refl _)
  obtain ⟨off, hofflen, hmap, hchain, hgap⟩ :=
    firstBDs_offsets _ _ hfbd
  have hrds : rataDie (addDaysDT now minAhead).date = rataDie now.date + minAhead := by
    show rataDie (addDays now.date minAhead) = _
    rw [rataDie_addDays now.date hv]
  unfold get_next_business_days
  refine ⟨hlen, firstBDs_business _ _ hfbd, ?_, ?_, off, hchain, hmap, hgap⟩
  · intro dt hdt
    rw [hmap] at hdt
    rcases List.mem_map.mp hdt with ⟨o, _, ho⟩
    rw [← ho]
    show _ ≤ rataDie (addDays (addDaysDT now minAhead).date o)
    rw [rataDie_addDays _ hvs o, hrds]
    omega
  · rw [hmap, List.chain'_map]
    refine hchain.imp ?_
    intro a b hab
    show rataDie (addDays (addDaysDT now minAhead).date a) <
      rataDie (addDays (addDaysDT now minAhead).date b)
    rw [rataDie_addDays _ hvs a, rataDie_addDays _ hvs b]
    omega

/-- Witness for `c2_next_business_days` at a concrete input. -/
theorem c2_next_business_days_witness :
    validDT ⟨⟨2025, 6, 2⟩, 0⟩ ∧ 1 ≤ 3 ∧
    ((get_next_business_days ⟨⟨2025, 6, 2⟩, 0⟩ 3 2).length = 3 ∧
      (∀ dt ∈ get_next_business_days ⟨⟨2025, 6, 2⟩, 0⟩ 3 2,
        is_business_day dt = true) ∧
      (∀ dt ∈ get_next_business_days ⟨⟨2025, 6, 2⟩, 0⟩ 3 2,
        rataDie (⟨⟨2025, 6, 2⟩, 0⟩ : PDateTime).date + 2 ≤ rataDie dt.date) ∧
      List.Chain' (fun a b => rataDie a.date < rataDie b.date)
        (get_next_business_days ⟨⟨2025, 6, 2⟩, 0⟩ 3 2) ∧
      ∃ off : List Nat, List.Chain' (· < ·) off ∧
        get_next_business_days ⟨⟨2025, 6, 2⟩, 0⟩ 3 2 =
          off.map (addDaysDT (addDaysDT ⟨⟨2025, 6, 2⟩, 0⟩ 2)) ∧
        (∀ j, (∀ o ∈ off, o ≠ j) → (∃ o ∈ off, j < o) →
          is_business_day (addDaysDT (addDaysDT ⟨⟨2025, 6, 2⟩, 0⟩ 2) j) = false)) :=
  ⟨by decide, by decide, c2_next_business_days ⟨⟨2025, 6, 2⟩, 0⟩ 3 2 (by decide) (by decide)⟩

/-! ## Claim C10 -/

/-- C10: the collecting loop of `get_next_business_days` terminates for
every count and start: within any 168 consecutive days from a valid date
there is a business day (the holiday table is finite and weekends never
cover a whole week), so at most `168 * count` iterations are needed; past
that bound the result is exactly `count` long and independent of the
iteration bound. -/
theorem c10_loop_terminates (now : PDateTime) (count minAhead : Nat)
    (hv : validDT now) :
    (get_next_business_days now count minAhead).length = count ∧
    ∀ fuel, 168 * count ≤ fuel →
      collectBD fuel (addDaysDT now minAhead) count =
        get_next_business_days now count minAhead := by
  have hvs : validDT (addDaysDT now minAhead) := validDT_addDaysDT now hv minAhead
  obtain ⟨hlen, hfbd⟩ :=
    collectBD_spec count (addDaysDT now minAhead) (168 * count) hvs (le_refl _)
  refine ⟨hlen, ?_⟩
  intro fuel hfuel
  obtain ⟨hlen', hfbd'⟩ := collectBD_spec count (addDaysDT now minAhead) fuel hvs hfuel
  exact firstBDs_unique _ _ _ hfbd' hfbd (by unfold get_next_business_days; rw [hlen, hlen'])

/-- Witness for `c10_loop_terminates` at a concrete input. -/
theorem c10_loop_terminates_witness :
    validDT ⟨⟨2025, 6, 2⟩, 0⟩ ∧
    ((get_next_business_days ⟨⟨2025, 6, 2⟩, 0⟩ 3 2).length = 3 ∧
      ∀ fuel, 168 * 3 ≤ fuel →
        collectBD fuel (addDaysDT ⟨⟨2025, 6, 2⟩, 0⟩ 2) 3 =
          get_next_business_days ⟨⟨2025, 6, 2⟩, 0⟩ 3 2) :=
  ⟨by decide, c10_loop_terminates ⟨⟨2025, 6, 2⟩, 0⟩ 3 2 (by decide)⟩

/-! ## Claim C3 -/

theorem weekdayDT_lt (dt : PDateTime) : weekdayDT dt < 7 :=
  Nat.mod_lt _ (by omega)

theorem weekBump_stop (minD t : PDateTime) (h : dtLt t minD = false) :
    weekBump 2 minD t = t := by
  simp [weekBump, h]

theorem weekBump_once (minD t : PDateTime) (h1 : dtLt t minD = true)
    (h2 : dtLt (addDaysDT t 7) minD = false) :
    weekBump 2 minD t = addDaysDT t 7 := by
  simp [weekBump, h1, h2]

/-- Evaluation of the weekday-name branch of `parse_user_date`: when the
lowered input contains the weekday named `w` (and that name is the first
hit of the `day_map` scan), the parser targets the day offset `D` with
`2 ≤ D ≤ 8` and `D ≡ w - weekday(today) (mod 7)`, returning it iff it is a
business day. -/
theorem parse_user_date_dayname (now : PDateTime) (hv : validDT now)
    (input : String) (w : Nat) (hw7 : w < 7)
    (hfd : firstDayName (lowerStr (stripStr input)) = some w) :
    ∃ D : Nat, 2 ≤ D ∧ D ≤ 8 ∧ D % 7 = (w + 7 - weekdayDT now) % 7 ∧
      parse_user_date now input =
        (if is_business_day (addDaysDT now D) then some (addDaysDT now D)
         else none) := by
  have hwd7 : weekdayDT now < 7 := weekdayDT_lt now
  unfold parse_user_date
  simp only [hfd]
  set da : Int := ((w : Int) - (weekdayDT now : Int)) % 7 with hda
  have hda_nat : da = ((w + 7 - weekdayDT now) % 7 : Nat) := by omega
  by_cases hz : da = 0
  · refine ⟨7, by omega, by omega, by omega, ?_⟩
    have hbeq : (da == 0) = true := by simp [hz]
    rw [hbeq]
    simp only [if_true]
    have h7 : ((7 : Int)).toNat = 7 := rfl
    rw [h7]
    rw [weekBump_stop _ _ (by rw [dtLt_addDaysDT now hv 7 2]; decide)]
  · have hbeq : (da == 0) = false := by simp [hz]
    rw [hbeq]
    simp only [Bool.false_eq_true, if_false]
    have hda1 : 1 ≤ da ∧ da ≤ 6 := by omega
    have htn : da.toNat = (w + 7 - weekdayDT now) % 7 := by omega
    by_cases h1 : da.toNat = 1
    · refine ⟨8, by omega, by omega, by omega, ?_⟩
      rw [h1]
      rw [weekBump_once _ _ (by rw [dtLt_addDaysDT now hv 1 2]; decide)
        (by rw [← addDaysDT_add, dtLt_addDaysDT now hv (1 + 7) 2]; decide)]
      rw [← addDaysDT_add]
    · refine ⟨da.toNat, by omega, by omega, by omega, ?_⟩
      rw [weekBump_stop _ _ (by
        rw [dtLt_addDaysDT now hv da.toNat 2]
        simp only [decide_eq_false_iff_not]
        omega)]

/-- C3 counterexample: frozen today = Wednesday 2025-07-02.  The coming
Friday is 2025-07-04, a holiday, so `parse("Friday")` returns `none` — not
the Friday one week later (2025-07-11) that the claim predicts. -/
theorem c3_holiday_friday_gives_none :
    weekdayDT ⟨⟨2025, 7, 2⟩, 0⟩ = 2 ∧ validDT ⟨⟨2025, 7, 2⟩, 0⟩ ∧
    is_business_day (addDaysDT ⟨⟨2025, 7, 2⟩, 0⟩ 2) = false ∧
    parse_user_date ⟨⟨2025, 7, 2⟩, 0⟩ "Friday" = none ∧
    ¬ parse_user_date ⟨⟨2025, 7, 2⟩, 0⟩ "Friday" =
        some ⟨⟨2025, 7, 11⟩, 0⟩ := by decide

/-- C3 (amended): with today frozen to any valid Wednesday,
`parse("Friday", today)` returns the coming Friday (two days ahead) if that
Friday is a business day; otherwise it returns `none` (not the Friday one
week later). -/
theorem c3_wednesday_friday (now : PDateTime) (hv : validDT now)
    (hw : weekdayDT now = 2) :
    parse_user_date now "Friday" =
      (if is_business_day (addDaysDT now 2) then some (addDaysDT now 2)
       else none) := by
  obtain ⟨D, hD2, hD8, hDmod, heq⟩ :=
    parse_user_date_dayname now hv "Friday" 4 (by omega) (by decide)
  rw [hw] at hDmod
  have : D = 2 := by omega
  rw [this] at heq
  exact heq

/-- Witness for `c3_wednesday_friday` at a concrete Wednesday. -/
theorem c3_wednesday_friday_witness :
    validDT ⟨⟨2025, 7, 9⟩, 0⟩ ∧ weekdayDT ⟨⟨2025, 7, 9⟩, 0⟩ = 2 ∧
    parse_user_date ⟨⟨2025, 7, 9⟩, 0⟩ "Friday" =
      (if is_business_day (addDaysDT ⟨⟨2025, 7, 9⟩, 0⟩ 2) then
        some (addDaysDT ⟨⟨2025, 7, 9⟩, 0⟩ 2)
       else none) :=
  ⟨by decide, by decide, c3_wednesday_friday ⟨⟨2025, 7, 9⟩, 0⟩ (by decide) (by decide)⟩

/-! ## Substring semantics -/

theorem prefOfL_iff : ∀ (n h : List Char), prefOfL n h = true ↔ ∃ t, h = n ++ t := by
  intro n
  induction n with
  | nil => intro h; simp [prefOfL]
  | cons a as ih =>
    intro h
    cases h with
    | nil =>
      simp only [prefOfL]
      constructor
      · intro hh; exact absurd hh (by simp)
      · rintro ⟨t, ht⟩; simp at ht
    | cons b bs =>
      show (a == b && prefOfL as bs) = true ↔ _
      rw [Bool.and_eq_true, beq_iff_eq, ih bs]
      constructor
      · rintro ⟨he, t, ht⟩
        exact ⟨t, by rw [← he, ht]; rfl⟩
      · rintro ⟨t, ht⟩
        rw [List.cons_append] at ht
        injection ht with h1 h2
        exact ⟨h1.symm, t, h2⟩

theorem hasSubL_iff (n : List Char) : ∀ (h : List Char),
    hasSubL n h = true ↔ ∃ s t, h = s ++ n ++ t := by
  intro h
  induction h with
  | nil =>
    simp only [hasSubL, List.isEmpty_iff]
    constructor
    · intro he; exact ⟨[], [], by simp [he]⟩
    · rintro ⟨s, t, hst⟩
      have h1 := List.append_eq_nil.mp hst.symm
      exact (List.append_eq_nil.mp h1.1).2
  | cons c tl ih =>
    show (prefOfL n (c :: tl) || hasSubL n tl) = true ↔ _
    rw [Bool.or_eq_true, prefOfL_iff, ih]
    constructor
    · rintro (⟨t, ht⟩ | ⟨s, t, hst⟩)
      · exact ⟨[], t, by simp [ht]⟩
      · exact ⟨c :: s, t, by simp [hst]⟩
    · rintro ⟨s, t, hst⟩
      cases s with
      | nil => left; exact ⟨t, by simpa using hst⟩
      | cons x xs =>
        right
        rw [List.cons_append, List.cons_append] at hst
        injection hst with h1 h2
        exact ⟨xs, t, h2⟩

theorem hasSubL_append_right (n a b : List Char) (h : hasSubL n b = true) :
    hasSubL n (a ++ b) = true := by
  rw [hasSubL_iff] at h ⊢
  obtain ⟨s, t, hst⟩ := h
  exact ⟨a ++ s, t, by simp [hst]⟩

theorem hasSubL_append_left (n a b : List Char) (h : hasSubL n a = true) :
    hasSubL n (a ++ b) = true := by
  rw [hasSubL_iff] at h ⊢
  obtain ⟨s, t, hst⟩ := h
  exact ⟨s, t ++ b, by simp [hst]⟩

theorem hasSubL_trans (n1 n2 h : List Char) (h12 : hasSubL n1 n2 = true)
    (h2h : hasSubL n2 h = true) : hasSubL n1 h = true := by
  rw [hasSubL_iff] at h12 h2h ⊢
  obtain ⟨s1, t1, e1⟩ := h12
  obtain ⟨s2, t2, e2⟩ := h2h
  exact ⟨s2 ++ s1, t1 ++ t2, by simp [e2, e1]⟩

theorem nfaStep_inv (n P : List Char) (S : List Nat) (c : Char)
    (h : nfaInv n P S) : nfaInv n (P ++ [c]) (nfaStep n S c) := by
  intro k hk ⟨p, hp⟩
  unfold nfaStep
  cases k with
  | zero => exact List.mem_cons_self _ _
  | succ j =>
    have hj : j < n.length := by omega
    have htake : n.take (j + 1) = n.take j ++ [n.get ⟨j, hj⟩] := by
      rw [List.take_succ, List.getElem?_eq_getElem hj]
      rfl
    rw [htake, ← List.append_assoc] at hp
    obtain ⟨hpp, hcc⟩ := List.append_inj' hp (by simp)
    have hjmem : j ∈ S := h j (by omega) ⟨p, hpp⟩
    apply List.mem_cons_of_mem
    apply List.mem_filterMap.mpr
    refine ⟨j, hjmem, ?_⟩
    have hgc : n.get ⟨j, hj⟩ = c := by
      injection hcc with h1 _
      exact h1.symm
    rw [List.get?_eq_get hj, hgc]
    simp

theorem nfaRun_inv (n : List Char) : ∀ (v P : List Char) (S : List Nat),
    nfaInv n P S → nfaInv n (P ++ v) ((nfaRun n S v).1) := by
  intro v
  induction v with
  | nil => intro P S h; simpa using h
  | cons c cs ih =>
    intro P S h
    show nfaInv n (P ++ c :: cs) (nfaRun n (nfaStep n S c) cs).1
    have h1 := nfaStep_inv n P S c h
    have h2 := ih (P ++ [c]) (nfaStep n S c) h1
    simpa using h2

theorem occ_snoc (n P : List Char) (c : Char) (_hne : n ≠ [])
    (hocc : OccL n (P ++ [c])) :
    OccL n P ∨ (∃ p, P ++ [c] = p ++ n) := by
  obtain ⟨s, t, hst⟩ := hocc
  rcases List.eq_nil_or_concat t with ht | ⟨t', a, ht⟩
  · subst ht
    right
    exact ⟨s, by simpa using hst⟩
  · subst ht
    left
    rw [List.concat_eq_append, ← List.append_assoc] at hst
    obtain ⟨h1, _⟩ := List.append_inj' hst (by simp)
    exact ⟨s, t', by rw [h1, List.append_assoc]⟩

theorem nfaRun_found (n : List Char) (hne : n ≠ []) :
    ∀ (v P : List Char) (S : List Nat), nfaInv n P S →
    (nfaRun n S v).2 = false → OccL n (P ++ v) → OccL n P := by
  intro v
  induction v with
  | nil => intro P S _ _ h; simpa using h
  | cons c cs ih =>
    intro P S hinv hf hocc
    have hf' : ((nfaStep n S c).contains n.length ||
        (nfaRun n (nfaStep n S c) cs).2) = false := hf
    rw [Bool.or_eq_false_iff] at hf'
    have hocc1 : OccL n ((P ++ [c]) ++ cs) := by simpa using hocc
    have hstep := nfaStep_inv n P S c hinv
    have hocc2 : OccL n (P ++ [c]) := ih (P ++ [c]) (nfaStep n S c) hstep hf'.2 hocc1
    rcases occ_snoc n P c hne hocc2 with h | ⟨p, hp⟩
    · exact h
    · exfalso
      have : n.length ∈ nfaStep n S c := by
        apply hstep n.length (le_refl _)
        exact ⟨p, by rw [hp, List.take_length]⟩
      have : (nfaStep n S c).contains n.length = true := by
        exact List.elem_iff.mpr this
      rw [this] at hf'
      exact absurd hf'.1 (by simp)

theorem nfaInv_mono (n P : List Char) (S S' : List Nat)
    (hsub : ∀ k, k ∈ S → k ∈ S') (h : nfaInv n P S) : nfaInv n P S' :=
  fun k hk hp => hsub k (h k hk hp)

theorem runShape_sound (n : List Char) (hne : n ≠ []) :
    ∀ (sh : List (List String)) (P l : List Char) (S : List Nat),
    nfaInv n P S → fitsShape sh l → (runShape n S sh).2 = false →
    OccL n (P ++ l) → OccL n P := by
  intro sh
  induction sh with
  | nil =>
    intro P l S _ hfit _ hocc
    have : l = [] := hfit
    subst this
    simpa using hocc
  | cons vs rest ih =>
    intro P l S hinv hfit hf hocc
    obtain ⟨s, hs, y, hly, hfy⟩ := hfit
    have hf' : (vs.any (fun s => (nfaRun n S s.data).2) ||
        (runShape n (((vs.map (fun s => (nfaRun n S s.data).1)).flatten).dedup) rest).2)
        = false := hf
    rw [Bool.or_eq_false_iff] at hf'
    have hinv1 : nfaInv n (P ++ s.data) ((nfaRun n S s.data).1) :=
      nfaRun_inv n s.data P S hinv
    have hinv2 : nfaInv n (P ++ s.data)
        (((vs.map (fun s => (nfaRun n S s.data).1)).flatten).dedup) := by
      apply nfaInv_mono n _ _ _ _ hinv1
      intro k hk
      rw [List.mem_dedup]
      apply List.mem_flatten.mpr
      exact ⟨(nfaRun n S s.data).1, List.mem_map_of_mem _ hs, hk⟩
    have hocc1 : OccL n ((P ++ s.data) ++ y) := by
      rw [hly] at hocc
      simpa using hocc
    have hocc2 : OccL n (P ++ s.data) :=
      ih (P ++ s.data) y _ hinv2 hfy hf'.2 hocc1
    have hrf : (nfaRun n S s.data).2 = false := by
      have := hf'.1
      rw [List.any_eq_false] at this
      exact Bool.eq_false_iff.mpr (this s hs)
    exact nfaRun_found n hne s.data P S hinv hrf hocc2

/-- Soundness of the checker: if `noSubShape n sh` holds then no string
fitting `sh` contains `n`. -/
theorem noSubShape_sound (n : List Char) (sh : List (List String))
    (hch : noSubShape n sh = true) :
    ∀ l, fitsShape sh l → hasSubL n l = false := by
  intro l hfit
  unfold noSubShape at hch
  rw [Bool.and_eq_true, Bool.not_eq_true', Bool.not_eq_true'] at hch
  obtain ⟨hrun, hemp⟩ := hch
  have hne : n ≠ [] := by
    intro he
    rw [he] at hemp
    exact absurd hemp (by simp)
  cases e : hasSubL n l with
  | false => rfl
  | true =>
    exfalso
    obtain ⟨s, t, hst⟩ := (hasSubL_iff n l).mp e
    have hinv0 : nfaInv n [] [0] := by
      intro k hk hp
      obtain ⟨p, hp⟩ := hp
      have h1 := List.append_eq_nil.mp hp.symm
      have hk0 : k = 0 := by
        rcases List.take_eq_nil_iff.mp h1.2 with h | h
        · exact h
        · exact absurd h hne
      rw [hk0]
      exact List.mem_cons_self _ _
    have hres := runShape_sound n hne sh [] l [0] hinv0 hfit hrun
      (by rw [List.nil_append]; exact ⟨s, t, hst⟩)
    obtain ⟨s2, t2, hst2⟩ := hres
    have h1 := List.append_eq_nil.mp hst2.symm
    exact hne (List.append_eq_nil.mp h1.1).2

/-! ## Support lemmas for the end-to-end scenario -/

theorem lowerStr_append (a b : String) :
    lowerStr (a ++ b) = lowerStr a ++ lowerStr b := by
  unfold lowerStr
  apply congrArg
  rw [String.data_append, List.map_append]

theorem data_append3 (a b : String) :
    (a ++ b).data = a.data ++ b.data := String.data_append a b

theorem headq_append_left (a b : List Char) (h : a ≠ []) :
    (a ++ b).head? = a.head? := by
  cases a with
  | nil => exact absurd rfl h
  | cons x xs => rfl

theorem spanL_append_all (p : Char → Bool) (xs ys : List Char)
    (hall : ∀ x ∈ xs, p x = true)
    (hstop : ∀ y, ys.head? = some y → p y = false) :
    spanL p (xs ++ ys) = (xs, ys) := by
  induction xs with
  | nil =>
    cases ys with
    | nil => rfl
    | cons y t =>
      have := hstop y rfl
      simp [spanL, this]
  | cons x xs ih =>
    have hx := hall x (List.mem_cons_self x xs)
    have ih' := ih (fun c hc => hall c (List.mem_cons_of_mem x hc))
    have hconv : xs.append ys = xs ++ ys := rfl
    simp only [List.cons_append, spanL, hx, if_true, hconv, ih']

theorem fitsShape_append : ∀ (sh1 sh2 : List (List String)) (l1 l2 : List Char),
    fitsShape sh1 l1 → fitsShape sh2 l2 → fitsShape (sh1 ++ sh2) (l1 ++ l2) := by
  intro sh1
  induction sh1 with
  | nil =>
    intro sh2 l1 l2 h1 h2
    have : l1 = [] := h1
    subst this
    simpa using h2
  | cons vs rest ih =>
    intro sh2 l1 l2 h1 h2
    obtain ⟨s, hs, y, hly, hfy⟩ := h1
    exact ⟨s, hs, y ++ l2, by rw [hly, List.append_assoc], ih sh2 y l2 hfy h2⟩

theorem fitsShape_single (vs : List String) (s : String) (hs : s ∈ vs) :
    fitsShape [vs] s.data :=
  ⟨s, hs, [], by simp, rfl⟩

/-- Character-class facts about the displayed name components. -/
theorem wdNameLower_facts : ∀ k, k < 7 →
    lowerStr (weekdayName.getD k "") ∈ wdNamesLower := by decide

theorem wdNamesLower_alpha : ∀ s ∈ wdNamesLower,
    s.data ≠ [] ∧ ∀ c ∈ s.data, c.isAlpha = true := by decide

theorem moAbbrLower_facts : ∀ j, j < 12 →
    lowerStr (monthAbbr.getD j "") ∈ moAbbrLower := by decide

theorem moFullLower_facts : ∀ j, j < 12 →
    lowerStr (monthFull.getD j "") ∈ moFullLower := by decide

theorem moFullLower_alpha : ∀ s ∈ moFullLower,
    s.data ≠ [] ∧ ∀ c ∈ s.data, c.isAlpha = true := by decide

theorem day2Lower_facts : ∀ d, 1 ≤ d → d ≤ 31 →
    lowerStr (pad2 d) ∈ day2Lower := by decide

theorem day2Lower_digits : ∀ s ∈ day2Lower,
    s.data ≠ [] ∧ ∀ c ∈ s.data, c.isDigit = true := by decide

theorem daysInMonth_le (y m : Nat) : daysInMonth y m ≤ 31 := by
  unfold daysInMonth
  split
  · split <;> omega
  · split <;> omega

theorem alpha_not_ws (c : Char) (h : c.isAlpha = true) : pyWS c = false := by
  cases e : pyWS c
  · rfl
  · exfalso
    have hm : c ∈ [' ', '\t', '\n', '\r', '\x0b', '\x0c'] := by
      simp only [pyWS, Bool.or_eq_true, beq_iff_eq] at e
      simp only [List.mem_cons, List.not_mem_nil, or_false]
      tauto
    fin_cases hm <;> simp_all

theorem digit_not_ws (c : Char) (h : c.isDigit = true) : pyWS c = false := by
  cases e : pyWS c
  · rfl
  · exfalso
    have hm : c ∈ [' ', '\t', '\n', '\r', '\x0b', '\x0c'] := by
      simp only [pyWS, Bool.or_eq_true, beq_iff_eq] at e
      simp only [List.mem_cons, List.not_mem_nil, or_false]
      tauto
    fin_cases hm <;> simp_all

theorem wdNamesLower_classes : ∀ s ∈ wdNamesLower, s.data ≠ [] ∧
    ∀ c ∈ s.data, c.isAlpha = true ∧ pyWS c = false ∧ c.isDigit = false := by decide

theorem moFullLower_classes : ∀ s ∈ moFullLower, s.data ≠ [] ∧
    ∀ c ∈ s.data, c.isAlpha = true ∧ pyWS c = false ∧ c.isDigit = false := by decide

theorem day2Lower_classes : ∀ s ∈ day2Lower, s.data ≠ [] ∧
    ∀ c ∈ s.data, c.isDigit = true ∧ pyWS c = false ∧ c.isAlpha = false := by decide

/-! ## At least four business days in any seven-day window -/

theorem is_business_day_iff (dt : PDateTime) :
    is_business_day dt = true ↔ weekdayDT dt < 5 ∧
      US_HOLIDAYS.contains (dt.date.year, dt.date.month, dt.date.day) = false := by
  unfold is_business_day
  split
  · rename_i h
    constructor
    · intro hh; exact absurd hh (by simp)
    · intro hand; omega
  · rename_i h
    split
    · rename_i h2
      constructor
      · intro hh; exact absurd hh (by simp)
      · intro hand
        rw [h2] at hand
        exact absurd hand.2 (by simp)
    · rename_i h2
      constructor
      · intro _; exact ⟨by omega, by simpa using h2⟩
      · intro _; rfl

theorem weekdayDT_addDaysDT (s : PDateTime) (hv : validDT s) (j : Nat) :
    weekdayDT (addDaysDT s j) = (weekdayDT s + j) % 7 := by
  show weekday (addDays s.date j) = (weekday s.date + j) % 7
  rw [weekday_addDays s.date hv]
  unfold weekday
  omega

theorem rataDie_addDaysDT (s : PDateTime) (hv : validDT s) (j : Nat) :
    rataDie (addDaysDT s j).date = rataDie s.date + j := by
  show rataDie (addDays s.date j) = _
  rw [rataDie_addDays s.date hv]

/-- Two holidays cannot fall within the same seven-day window. -/
theorem at_most_one_holiday7 (s : PDateTime) (hv : validDT s) (j1 j2 : Nat)
    (h1 : j1 < j2) (h2 : j2 - j1 < 7)
    (hh1 : US_HOLIDAYS.contains ((addDaysDT s j1).date.year,
      (addDaysDT s j1).date.month, (addDaysDT s j1).date.day) = true)
    (hh2 : US_HOLIDAYS.contains ((addDaysDT s j2).date.year,
      (addDaysDT s j2).date.month, (addDaysDT s j2).date.day) = true) : False := by
  have m1 := holiday_mem_nums _ hh1
  have m2 := holiday_mem_nums _ hh2
  rw [rataDie_addDaysDT s hv j1] at m1
  rw [rataDie_addDaysDT s hv j2] at m2
  have := holiday_gap _ m1 _ m2 (by omega)
  omega

theorem weekday_window_card (w : Nat) (hw : w < 7) :
    ((Finset.range 7).filter (fun j => (w + j) % 7 < 5)).card = 5 := by
  interval_cases w <;> decide

theorem four_business_in_seven (s : PDateTime) (hv : validDT s) :
    4 ≤ ((Finset.range 7).filter
      (fun j => is_business_day (addDaysDT s j) = true)).card := by
  have hw : weekdayDT s < 7 := weekdayDT_lt s
  have hWcard := weekday_window_card (weekdayDT s) hw
  have hHcard : ((Finset.range 7).filter
      (fun j => US_HOLIDAYS.contains ((addDaysDT s j).date.year,
        (addDaysDT s j).date.month, (addDaysDT s j).date.day) = true)).card ≤ 1 := by
    rw [Finset.card_le_one]
    intro a ha b hb
    rw [Finset.mem_filter, Finset.mem_range] at ha hb
    by_contra hne
    rcases Nat.lt_trichotomy a b with h | h | h
    · exact at_most_one_holiday7 s hv a b h (by omega) ha.2 hb.2
    · exact hne h
    · exact at_most_one_holiday7 s hv b a h (by omega) hb.2 ha.2
  have hsub : ((Finset.range 7).filter (fun j => (weekdayDT s + j) % 7 < 5)) \
      ((Finset.range 7).filter
      (fun j => US_HOLIDAYS.contains ((addDaysDT s j).date.year,
        (addDaysDT s j).date.month, (addDaysDT s j).date.day) = true)) ⊆
      (Finset.range 7).filter (fun j => is_business_day (addDaysDT s j) = true) := by
    intro j hj
    rw [Finset.mem_sdiff, Finset.mem_filter, Finset.mem_range] at hj
    obtain ⟨⟨hj7, hjw⟩, hjH⟩ := hj
    rw [Finset.mem_filter, Finset.mem_range]
    refine ⟨hj7, ?_⟩
    rw [is_business_day_iff]
    refine ⟨by rw [weekdayDT_addDaysDT s hv j]; exact hjw, ?_⟩
    cases e : US_HOLIDAYS.contains ((addDaysDT s j).date.year,
        (addDaysDT s j).date.month, (addDaysDT s j).date.day) with
    | false => rfl
    | true =>
      exact absurd (Finset.mem_filter.mpr ⟨Finset.mem_range.mpr hj7, e⟩) hjH
  have h1 := Finset.card_le_card hsub
  have h2 := Finset.card_le_card_sdiff_add_card
    (s := (Finset.range 7).filter (fun j => (weekdayDT s + j) % 7 < 5))
    (t := (Finset.range 7).filter
      (fun j => US_HOLIDAYS.contains ((addDaysDT s j).date.year,
        (addDaysDT s j).date.month, (addDaysDT s j).date.day) = true))
  omega

/-- If the first three business-day offsets from a valid start are
`a < b < c` (every other earlier offset failing the test), the third one is
at most six. -/
theorem third_offset_le_six (s : PDateTime) (hv : validDT s) (a b c : Nat)
    (hab : a < b) (hbc : b < c)
    (hgap : ∀ j, (∀ o ∈ [a, b, c], o ≠ j) → (∃ o ∈ [a, b, c], j < o) →
      is_business_day (addDaysDT s j) = false) :
    c ≤ 6 := by
  by_contra hc
  push_neg at hc
  have hsub : (Finset.range 7).filter
      (fun j => is_business_day (addDaysDT s j) = true) ⊆ ({a, b} : Finset Nat) := by
    intro j hj
    rw [Finset.mem_filter, Finset.mem_range] at hj
    obtain ⟨hj7, hjb⟩ := hj
    by_cases hja : j = a
    · simp [hja]
    by_cases hjb2 : j = b
    · simp [hjb2]
    exfalso
    have hne : ∀ o ∈ [a, b, c], o ≠ j := by
      intro o ho
      simp only [List.mem_cons, List.not_mem_nil, or_false] at ho
      rcases ho with rfl | rfl | rfl
      · omega
      · omega
      · omega
    have hex : ∃ o ∈ [a, b, c], j < o := ⟨c, by simp, by omega⟩
    have := hgap j hne hex
    rw [this] at hjb
    exact absurd hjb (by simp)
  have hcard := Finset.card_le_card hsub
  have h4 := four_business_in_seven s hv
  have h2 : ({a, b} : Finset Nat).card ≤ 2 := by
    apply le_trans (Finset.card_insert_le _ _)
    simp
  omega

/-- Structure of the three listed options: each is `now + (2 + o)` for
strictly increasing offsets `o ≤ 6`, and each is a business day. -/
theorem options_structure (now : PDateTime) (hv : validDT now) :
    ∃ o1 o2 o3 : Nat, o1 < o2 ∧ o2 < o3 ∧ o3 ≤ 6 ∧
      get_next_business_days now 3 2 =
        [addDaysDT now (2 + o1), addDaysDT now (2 + o2), addDaysDT now (2 + o3)] ∧
      is_business_day (addDaysDT now (2 + o1)) = true ∧
      is_business_day (addDaysDT now (2 + o2)) = true ∧
      is_business_day (addDaysDT now (2 + o3)) = true := by
  have hvs : validDT (addDaysDT now 2) := validDT_addDaysDT now hv 2
  obtain ⟨hlen, hfbd⟩ := collectBD_spec 3 (addDaysDT now 2) (168 * 3) hvs (le_refl _)
  obtain ⟨off, hofflen, hmap, hchain, hgap⟩ := firstBDs_offsets _ _ hfbd
  rw [hlen] at hofflen
  cases off with
  | nil => simp at hofflen
  | cons a t1 =>
  cases t1 with
  | nil => simp at hofflen
  | cons b t2 =>
  cases t2 with
  | nil => simp at hofflen
  | cons c t3 =>
  cases t3 with
  | cons d t4 => simp at hofflen
  | nil =>
    have hab : a < b := (List.chain'_cons.mp hchain).1
    have hbc : b < c := (List.chain'_cons.mp (List.chain'_cons.mp hchain).2).1
    have hc6 : c ≤ 6 := third_offset_le_six (addDaysDT now 2) hvs a b c hab hbc hgap
    have hmap' : get_next_business_days now 3 2 =
        [addDaysDT now (2 + a), addDaysDT now (2 + b), addDaysDT now (2 + c)] := by
      unfold get_next_business_days
      rw [hmap]
      simp only [List.map_cons, List.map_nil]
      rw [← addDaysDT_add, ← addDaysDT_add, ← addDaysDT_add]
    have hbus : ∀ dt ∈ get_next_business_days now 3 2, is_business_day dt = true := by
      intro dt hdt
      apply firstBDs_business _ _ hfbd
      unfold get_next_business_days at hdt
      exact hdt
    refine ⟨a, b, c, hab, hbc, hc6, hmap', ?_, ?_, ?_⟩ <;>
    · apply hbus
      rw [hmap']
      simp

theorem fitsShape_cons (vs : List String) (rest : List (List String))
    (s : String) (hs : s ∈ vs) (y : List Char) (hy : fitsShape rest y) :
    fitsShape (vs :: rest) (s.data ++ y) := ⟨s, hs, y, rfl, hy⟩

theorem intercalate3 (a b c : String) :
    String.intercalate ", " [a, b, c] = a ++ ", " ++ b ++ ", " ++ c := rfl

theorem head_mem_of_ne_nil (a : List Char) (h : a ≠ []) :
    ∀ y, a.head? = some y → y ∈ a := by
  cases a with
  | nil => exact absurd rfl h
  | cons c t =>
    intro y hy
    simp only [List.head?_cons, Option.some.injEq] at hy
    rw [← hy]
    exact List.mem_cons_self c t

theorem spanL_stop_append (p : Char → Bool) (a rest : List Char) (ha : a ≠ [])
    (hc : ∀ c ∈ a, p c = false) :
    ∀ y, (a ++ rest).head? = some y → p y = false := by
  intro y hy
  rw [headq_append_left a rest ha] at hy
  exact hc y (head_mem_of_ne_nil a ha y hy)

/-- If `n1` occurs in `n2` and `n1` does not occur in `hay`, then neither
does `n2`. -/
theorem pyIn_mono (n1 n2 hay : String) (h12 : pyIn n1 n2 = true)
    (hn : pyIn n1 hay = false) : pyIn n2 hay = false := by
  cases e : pyIn n2 hay
  · rfl
  · exfalso
    unfold pyIn at *
    have := hasSubL_trans n1.data n2.data hay.data h12 e
    rw [this] at hn
    exact absurd hn (by simp)

theorem mk_beq_empty (d : List Char) (h : d ≠ []) :
    ((⟨d⟩ : String) == "") = false := by
  cases e : (⟨d⟩ : String) == ""
  · rfl
  · exfalso
    have h2 := eq_of_beq e
    exact h (congrArg String.data h2)

theorem lowerStr_beq_empty (s : String) (h : s.data ≠ []) :
    (lowerStr s == "") = false := by
  apply mk_beq_empty
  intro hm
  exact h (List.map_eq_nil_iff.mp hm)

theorem schedA3_ne_empty (now : PDateTime) :
    (lowerStr (schedA3 now) == "") = false := by
  apply lowerStr_beq_empty
  unfold schedA3
  rw [data_append3]
  intro hm
  have h1 := List.append_eq_nil.mp hm
  exact absurd h1.1 (by decide)

theorem schedA4_ne_empty (e : PDateTime) :
    (lowerStr (schedA4 e) == "") = false := by
  apply lowerStr_beq_empty
  unfold schedA4
  rw [data_append3, data_append3]
  intro hm
  have h1 := List.append_eq_nil.mp hm
  have h2 := List.append_eq_nil.mp h1.1
  exact absurd h2.1 (by decide)

/-- A lower-cased `strftime("%A, %b %d")` date fits the option shape. -/
theorem fmtAbd_fits (e : PDateTime) (hv : validDT e) :
    fitsShape shapeOpt (lowerStr (fmtAbd e)).data := by
  obtain ⟨hy, hm1, hm12, hd1, hdle⟩ := hv
  have hd31 : e.date.day ≤ 31 := le_trans hdle (daysInMonth_le _ _)
  have hdata : (lowerStr (fmtAbd e)).data =
      (lowerStr (weekdayName.getD (weekdayDT e) "")).data ++
      ((", " : String).data ++
      ((lowerStr (monthAbbr.getD (e.date.month - 1) "")).data ++
      ((" " : String).data ++ ((lowerStr (pad2 e.date.day)).data ++ [])))) := by
    unfold fmtAbd
    rw [lowerStr_append, lowerStr_append, lowerStr_append, lowerStr_append]
    rw [show lowerStr ", " = ", " from rfl, show lowerStr " " = " " from rfl]
    simp [String.data_append]
  rw [hdata]
  show fitsShape (wdNamesLower :: [", "] :: moAbbrLower :: [" "] :: day2Lower :: []) _
  apply fitsShape_cons _ _ _ (wdNameLower_facts (weekdayDT e) (weekdayDT_lt e))
  apply fitsShape_cons _ _ (", ") (by simp)
  apply fitsShape_cons _ _ _ (moAbbrLower_facts (e.date.month - 1) (by omega))
  apply fitsShape_cons _ _ (" ") (by simp)
  apply fitsShape_cons _ _ _ (day2Lower_facts e.date.day hd1 hd31)
  rfl

/-- The lower-cased option list fits the triple option shape. -/
theorem fdo_fits (now : PDateTime) (e1 e2 e3 : PDateTime)
    (hv1 : validDT e1) (hv2 : validDT e2) (hv3 : validDT e3)
    (hmap : get_next_business_days now 3 2 = [e1, e2, e3]) :
    fitsShape (shapeOpt ++ ([[", "]] ++ (shapeOpt ++ ([[", "]] ++ shapeOpt))))
      (lowerStr (format_date_options now)).data := by
  unfold format_date_options
  rw [hmap]
  simp only [List.map_cons, List.map_nil]
  rw [intercalate3]
  rw [lowerStr_append, lowerStr_append, lowerStr_append, lowerStr_append]
  rw [show lowerStr ", " = ", " from rfl]
  have hassoc : (lowerStr (fmtAbd e1) ++ ", " ++ lowerStr (fmtAbd e2) ++ ", " ++
      lowerStr (fmtAbd e3)).data =
      (lowerStr (fmtAbd e1)).data ++ ((", " : String).data ++
      ((lowerStr (fmtAbd e2)).data ++ ((", " : String).data ++
      (lowerStr (fmtAbd e3)).data))) := by
    simp [String.data_append]
  rw [hassoc]
  apply fitsShape_append _ _ _ _ (fmtAbd_fits e1 hv1)
  apply fitsShape_append [[", "]] _ _ _ (fitsShape_single [", "] ", " (by simp))
  apply fitsShape_append _ _ _ _ (fmtAbd_fits e2 hv2)
  apply fitsShape_append [[", "]] _ _ _ (fitsShape_single [", "] ", " (by simp))
  exact fmtAbd_fits e3 hv3

/-- The lower-cased phone-step reply fits `shapeA3`. -/
theorem schedA3_fits (now : PDateTime) (hv : validDT now) :
    fitsShape shapeA3 (lowerStr (schedA3 now)).data := by
  obtain ⟨o1, o2, o3, _, _, _, hmap, hb1, hb2, hb3⟩ := options_structure now hv
  unfold schedA3
  rw [lowerStr_append]
  have h1 : (lowerStr
      "Got it, John! What day works best for the call? Our next available days are: " ++
      lowerStr (format_date_options now)).data =
      ("got it, john! what day works best for the call? our next available days are: " :
        String).data ++ (lowerStr (format_date_options now)).data := by
    rw [show lowerStr
      "Got it, John! What day works best for the call? Our next available days are: " =
      "got it, john! what day works best for the call? our next available days are: "
      from rfl]
    exact data_append3 _ _
  rw [h1]
  show fitsShape
    (["got it, john! what day works best for the call? our next available days are: "] ::
      (shapeOpt ++ ([[", "]] ++ (shapeOpt ++ ([[", "]] ++ shapeOpt))))) _
  apply fitsShape_cons _ _
    ("got it, john! what day works best for the call? our next available days are: ")
    (by simp)
  exact fdo_fits now _ _ _ (validDT_addDaysDT now hv _) (validDT_addDaysDT now hv _)
    (validDT_addDaysDT now hv _) hmap

/-- Append decomposition of the lower-cased date-step reply. -/
theorem schedA4_append (e : PDateTime) :
    (lowerStr (schedA4 e)).data =
      ("great, " : String).data ++
      ((lowerStr (weekdayName.getD (weekdayDT e) "")).data ++
      ((", " : String).data ++
      ((lowerStr (monthFull.getD (e.date.month - 1) "")).data ++
      ((" " : String).data ++
      ((lowerStr (pad2 e.date.day)).data ++
      (" it is! what time works best - morning, afternoon, or evening?" :
        String).data))))) := by
  unfold schedA4 fmtABd
  simp only [lowerStr_append]
  rw [show lowerStr "Great, " = "great, " from rfl,
    show lowerStr ", " = ", " from rfl,
    show lowerStr " " = " " from rfl,
    show lowerStr " it is! What time works best - morning, afternoon, or evening?" =
      " it is! what time works best - morning, afternoon, or evening?" from rfl]
  simp [String.data_append]

/-- Character-list decomposition of the lower-cased date-step reply,
aligned with the anchored confirmed-date matcher. -/
theorem schedA4_data (e : PDateTime) :
    (lowerStr (schedA4 e)).data =
      'g' :: 'r' :: 'e' :: 'a' :: 't' :: ',' :: ' ' ::
        ((lowerStr (weekdayName.getD (weekdayDT e) "")).data ++ (',' :: ' ' ::
        ((lowerStr (monthFull.getD (e.date.month - 1) "")).data ++ (' ' ::
        ((lowerStr (pad2 e.date.day)).data ++ (' ' :: 'i' :: 't' :: ' ' :: 'i' :: 's' ::
          ("! what time works best - morning, afternoon, or evening?" :
            String).data)))))) := by
  rw [schedA4_append]
  rfl

/-- The lower-cased date-step reply fits `shapeA4`. -/
theorem schedA4_fits (e : PDateTime) (hv : validDT e) :
    fitsShape shapeA4 (lowerStr (schedA4 e)).data := by
  obtain ⟨hy, hm1, hm12, hd1, hdle⟩ := hv
  have hd31 : e.date.day ≤ 31 := le_trans hdle (daysInMonth_le _ _)
  rw [schedA4_append]
  show fitsShape (["great, "] :: wdNamesLower :: [", "] :: moFullLower :: [" "] ::
    day2Lower ::
    [" it is! what time works best - morning, afternoon, or evening?"] :: []) _
  apply fitsShape_cons _ _ ("great, ") (by simp)
  apply fitsShape_cons _ _ _ (wdNameLower_facts (weekdayDT e) (weekdayDT_lt e))
  apply fitsShape_cons _ _ (", ") (by simp)
  apply fitsShape_cons _ _ _ (moFullLower_facts (e.date.month - 1) (by omega))
  apply fitsShape_cons _ _ (" ") (by simp)
  apply fitsShape_cons _ _ _ (day2Lower_facts e.date.day hd1 hd31)
  apply fitsShape_cons _ _
    (" it is! what time works best - morning, afternoon, or evening?") (by simp)
  rfl

/-! ## Checker certificates: needles absent from the symbolic replies -/

theorem nsub_A3_perfect : noSubShape "perfect".data shapeA3 = true := by decide

theorem nsub_A3_agentcall : noSubShape "agent will call".data shapeA3 = true := by decide

theorem nsub_A3_yourname : noSubShape "your name".data shapeA3 = true := by decide

theorem nsub_A3_firstname : noSubShape "first name".data shapeA3 = true := by decide

theorem nsub_A3_morning : noSubShape "morning".data shapeA3 = true := by decide

theorem nsub_A4_perfect : noSubShape "perfect".data shapeA4 = true := by decide

theorem nsub_A4_agentcall : noSubShape "agent will call".data shapeA4 = true := by decide

theorem nsub_A4_yourname : noSubShape "your name".data shapeA4 = true := by decide

theorem nsub_A4_firstname : noSubShape "first name".data shapeA4 = true := by decide

theorem detect_date_step (now : PDateTime) (messages : List Msg) (u la : String)
    (h2 : 2 ≤ messages.length)
    (hlast : messages.getLast? = some ⟨"user", u⟩)
    (hla : lastAssistantMsg messages = some la)
    (hlane : (la == "") = false)
    (hperf : pyIn "perfect" la = false)
    (hcall : pyIn "agent will call" la = false)
    (hsched : isSchedulingRequest (lowerStr (stripStr u)) = false)
    (hyn : pyIn "your name" la = false)
    (hfn : pyIn "first name" la = false)
    (hwyn : pyIn "what's your name" la = false)
    (hmo : pyIn "morning" la = false)
    (hwd : pyIn "what day" la = true) :
    detect_scheduling_context now messages =
      (match parse_user_date now (stripStr u) with
       | some pd => some ("Great, " ++ fmtABd pd ++
           " it is! What time works best - morning, afternoon, or evening?")
       | none =>
         some ("Sorry, that date isn't available. Our next available days are: " ++
           format_date_options now ++ ". Which works best for you?")) := by
  have hne1 : (messages.length == 1) = false := by
    have : messages.length ≠ 1 := by omega
    simpa using this
  unfold detect_scheduling_context
  rw [if_neg (by omega : ¬ messages.length < 1)]
  rw [hlast, hla]
  simp only [hne1, hlane, hsched, hperf, hcall, hyn, hfn, hwyn, hmo, hwd,
    Bool.false_and, Bool.and_false, Bool.false_or, Bool.or_false, Bool.false_eq_true,
    if_false, Bool.true_or, Bool.or_true]
  rw [if_neg (by omega : ¬ messages.length < 2)]
  simp only [beq_self_eq_true, eq_self_iff_true, if_true, ite_true, ite_false, hsched,
    Bool.false_and, Bool.false_eq_true, if_false]

theorem detect_time_step (now : PDateTime) (messages : List Msg) (u la : String)
    (h2 : 2 ≤ messages.length)
    (hlast : messages.getLast? = some ⟨"user", u⟩)
    (hla : lastAssistantMsg messages = some la)
    (hlane : (la == "") = false)
    (hperf : pyIn "perfect" la = false)
    (hcall : pyIn "agent will call" la = false)
    (hsched : isSchedulingRequest (lowerStr (stripStr u)) = false)
    (hyn : pyIn "your name" la = false)
    (hfn : pyIn "first name" la = false)
    (hwyn : pyIn "what's your name" la = false)
    (hmo : pyIn "morning" la = true)
    (haf : pyIn "afternoon" la = true)
    (hev : pyIn "evening" la = true) :
    detect_scheduling_context now messages =
      some (timeStepReply messages (lowerStr (stripStr u)) la) := by
  have hne1 : (messages.length == 1) = false := by
    have : messages.length ≠ 1 := by omega
    simpa using this
  unfold detect_scheduling_context
  rw [if_neg (by omega : ¬ messages.length < 1)]
  rw [hlast, hla]
  simp only [hne1, hlane, hsched, hperf, hcall, hyn, hfn, hwyn, hmo, haf, hev,
    Bool.false_and, Bool.and_false, Bool.false_or, Bool.or_false, Bool.false_eq_true,
    if_false, Bool.true_and, Bool.and_self]
  rw [if_neg (by omega : ¬ messages.length < 2)]
  simp only [beq_self_eq_true, eq_self_iff_true, if_true, ite_true, ite_false, hsched,
    Bool.false_and, Bool.false_eq_true, if_false]

/-- Symbolic evaluation of the anchored confirmed-date matcher on the
lower-cased date-step reply. -/
theorem greatAt_eval (lw lm dd tail : List Char)
    (hlw : lw ≠ []) (hlwA : ∀ c ∈ lw, c.isAlpha = true) (hlwW : ∀ c ∈ lw, pyWS c = false)
    (hlm : lm ≠ []) (hlmA : ∀ c ∈ lm, c.isAlpha = true) (hlmW : ∀ c ∈ lm, pyWS c = false)
    (hdd : dd ≠ []) (hddD : ∀ c ∈ dd, c.isDigit = true)
    (hddW : ∀ c ∈ dd, pyWS c = false) :
    greatAt ('g' :: 'r' :: 'e' :: 'a' :: 't' :: ',' :: ' ' ::
        (lw ++ (',' :: ' ' :: (lm ++ (' ' :: (dd ++
          (' ' :: 'i' :: 't' :: ' ' :: 'i' :: 's' :: tail))))))) =
      some (lw ++ [','] ++ [' '] ++ lm ++ [' '] ++ dd) := by
  have hsp1 : spanL pyWS (' ' :: (lw ++ (',' :: ' ' :: (lm ++ (' ' :: (dd ++
        (' ' :: 'i' :: 't' :: ' ' :: 'i' :: 's' :: tail))))))) =
      ([' '], lw ++ (',' :: ' ' :: (lm ++ (' ' :: (dd ++
        (' ' :: 'i' :: 't' :: ' ' :: 'i' :: 's' :: tail)))))) :=
    spanL_append_all pyWS [' '] _ (by decide) (spanL_stop_append pyWS lw _ hlw hlwW)
  have hsp2 : spanL Char.isAlpha (lw ++ (',' :: ' ' :: (lm ++ (' ' :: (dd ++
        (' ' :: 'i' :: 't' :: ' ' :: 'i' :: 's' :: tail)))))) =
      (lw, ',' :: ' ' :: (lm ++ (' ' :: (dd ++
        (' ' :: 'i' :: 't' :: ' ' :: 'i' :: 's' :: tail))))) :=
    spanL_append_all Char.isAlpha lw _ hlwA (by
      intro y hy
      simp only [List.head?_cons, Option.some.injEq] at hy
      rw [← hy]; decide)
  have hsp3 : spanL pyWS (' ' :: (lm ++ (' ' :: (dd ++
        (' ' :: 'i' :: 't' :: ' ' :: 'i' :: 's' :: tail))))) =
      ([' '], lm ++ (' ' :: (dd ++ (' ' :: 'i' :: 't' :: ' ' :: 'i' :: 's' :: tail)))) :=
    spanL_append_all pyWS [' '] _ (by decide) (spanL_stop_append pyWS lm _ hlm hlmW)
  have hsp4 : spanL Char.isAlpha (lm ++ (' ' :: (dd ++
        (' ' :: 'i' :: 't' :: ' ' :: 'i' :: 's' :: tail)))) =
      (lm, ' ' :: (dd ++ (' ' :: 'i' :: 't' :: ' ' :: 'i' :: 's' :: tail))) :=
    spanL_append_all Char.isAlpha lm _ hlmA (by
      intro y hy
      simp only [List.head?_cons, Option.some.injEq] at hy
      rw [← hy]; decide)
  have hsp5 : spanL pyWS (' ' :: (dd ++
        (' ' :: 'i' :: 't' :: ' ' :: 'i' :: 's' :: tail))) =
      ([' '], dd ++ (' ' :: 'i' :: 't' :: ' ' :: 'i' :: 's' :: tail)) :=
    spanL_append_all pyWS [' '] _ (by decide) (spanL_stop_append pyWS dd _ hdd hddW)
  have hsp6 : spanL Char.isDigit (dd ++ (' ' :: 'i' :: 't' :: ' ' :: 'i' :: 's' :: tail)) =
      (dd, ' ' :: 'i' :: 't' :: ' ' :: 'i' :: 's' :: tail) :=
    spanL_append_all Char.isDigit dd _ hddD (by
      intro y hy
      simp only [List.head?_cons, Option.some.injEq] at hy
      rw [← hy]; decide)
  have hsp7 : spanL pyWS (' ' :: 'i' :: 't' :: ' ' :: 'i' :: 's' :: tail) =
      ([' '], 'i' :: 't' :: ' ' :: 'i' :: 's' :: tail) :=
    spanL_append_all pyWS [' '] _ (by decide) (by
      intro y hy
      simp only [List.head?_cons, Option.some.injEq] at hy
      rw [← hy]; decide)
  have hlen : decide (6 ≤ ('g' :: 'r' :: 'e' :: 'a' :: 't' :: ',' :: ' ' ::
      (lw ++ (',' :: ' ' :: (lm ++ (' ' :: (dd ++
        (' ' :: 'i' :: 't' :: ' ' :: 'i' :: 's' :: tail))))))).length) = true := by
    apply decide_eq_true
    simp [List.length_cons]
  have hlen2 : decide (5 ≤ ('i' :: 't' :: ' ' :: 'i' :: 's' :: tail).length) = true := by
    apply decide_eq_true
    simp [List.length_cons]
  unfold greatAt
  rw [show ('g' :: 'r' :: 'e' :: 'a' :: 't' :: ',' :: ' ' ::
      (lw ++ (',' :: ' ' :: (lm ++ (' ' :: (dd ++
        (' ' :: 'i' :: 't' :: ' ' :: 'i' :: 's' :: tail))))))).take 6 =
      ['g', 'r', 'e', 'a', 't', ','] from rfl]
  rw [show prefOfCI "great,".data ['g', 'r', 'e', 'a', 't', ','] = true from by decide]
  rw [hlen]
  rw [show (true && true) = true from rfl]
  rw [if_pos rfl]
  rw [show ('g' :: 'r' :: 'e' :: 'a' :: 't' :: ',' :: ' ' ::
      (lw ++ (',' :: ' ' :: (lm ++ (' ' :: (dd ++
        (' ' :: 'i' :: 't' :: ' ' :: 'i' :: 's' :: tail))))))).drop 6 =
      ' ' :: (lw ++ (',' :: ' ' :: (lm ++ (' ' :: (dd ++
        (' ' :: 'i' :: 't' :: ' ' :: 'i' :: 's' :: tail)))))) from rfl]
  rw [hsp1]
  simp only []
  rw [hsp2]
  cases lw with
  | nil => exact absurd rfl hlw
  | cons lw0 lwt =>
  simp only []
  rw [hsp3]
  simp only []
  rw [hsp4]
  cases lm with
  | nil => exact absurd rfl hlm
  | cons lm0 lmt =>
  simp only []
  rw [hsp5]
  simp only []
  rw [hsp6]
  cases dd with
  | nil => exact absurd rfl hdd
  | cons dd0 ddt =>
  simp only []
  rw [hsp7]
  simp only []
  rw [show ('i' :: 't' :: ' ' :: 'i' :: 's' :: tail).take 5 = ['i', 't', ' ', 'i', 's']
    from rfl]
  rw [show prefOfCI "it is".data ['i', 't', ' ', 'i', 's'] = true from by decide]
  rw [hlen2]
  rw [show (true && true) = true from rfl]
  rw [if_pos rfl]

theorem greatGo_head (l r : List Char) (c : Char) (h : greatAt (c :: l) = some r) :
    greatGo (c :: l) = some r := by
  simp only [greatGo, h]

theorem timeScan_assistant (rest : List Msg) (found : Bool) (name phone c : String) :
    timeScan (⟨"assistant", c⟩ :: rest) found name phone =
      timeScan rest (found || nameQ3 c) name phone := rfl

theorem timeScan_user_skip (rest : List Msg) (name phone c : String)
    (hcd : ((digitsOf (stripStr c)).length == 10) = false) :
    timeScan (⟨"user", c⟩ :: rest) false name phone = timeScan rest false name phone := by
  simp only [timeScan]
  rw [hcd]
  rfl

theorem timeScan_user_capture (rest : List Msg) (phone c : String)
    (hcd : ((digitsOf (stripStr c)).length == 10) = false)
    (hpc : allPhoneChars (stripStr c) = false) :
    timeScan (⟨"user", c⟩ :: rest) true "there" phone =
      timeScan rest false (captureName (stripStr c) "there") phone := by
  simp only [timeScan]
  rw [hcd, hpc]
  rfl

theorem timeScan_user_digits (rest : List Msg) (found : Bool) (name phone c : String)
    (hcd : ((digitsOf (stripStr c)).length == 10) = true) :
    timeScan (⟨"user", c⟩ :: rest) found name phone =
      timeScan rest found name ⟨digitsOf (stripStr c)⟩ := by
  simp only [timeScan]
  rw [hcd]
  rfl

theorem schedA3_no_perfect (now : PDateTime) (hv : validDT now) :
    pyIn "perfect" (lowerStr (schedA3 now)) = false :=
  noSubShape_sound _ _ nsub_A3_perfect _ (schedA3_fits now hv)

theorem schedA3_no_agentcall (now : PDateTime) (hv : validDT now) :
    pyIn "agent will call" (lowerStr (schedA3 now)) = false :=
  noSubShape_sound _ _ nsub_A3_agentcall _ (schedA3_fits now hv)

theorem schedA3_no_yourname (now : PDateTime) (hv : validDT now) :
    pyIn "your name" (lowerStr (schedA3 now)) = false :=
  noSubShape_sound _ _ nsub_A3_yourname _ (schedA3_fits now hv)

theorem schedA3_no_firstname (now : PDateTime) (hv : validDT now) :
    pyIn "first name" (lowerStr (schedA3 now)) = false :=
  noSubShape_sound _ _ nsub_A3_firstname _ (schedA3_fits now hv)

theorem schedA3_no_whatsname (now : PDateTime) (hv : validDT now) :
    pyIn "what's your name" (lowerStr (schedA3 now)) = false :=
  pyIn_mono "your name" "what's your name" _ (by decide) (schedA3_no_yourname now hv)

theorem schedA3_no_morning (now : PDateTime) (hv : validDT now) :
    pyIn "morning" (lowerStr (schedA3 now)) = false :=
  noSubShape_sound _ _ nsub_A3_morning _ (schedA3_fits now hv)

theorem schedA3_what_day (now : PDateTime) :
    pyIn "what day" (lowerStr (schedA3 now)) = true := by
  unfold pyIn schedA3
  rw [lowerStr_append, data_append3]
  apply hasSubL_append_left
  decide

theorem schedA4_no_perfect (e : PDateTime) (hv : validDT e) :
    pyIn "perfect" (lowerStr (schedA4 e)) = false :=
  noSubShape_sound _ _ nsub_A4_perfect _ (schedA4_fits e hv)

theorem schedA4_no_agentcall (e : PDateTime) (hv : validDT e) :
    pyIn "agent will call" (lowerStr (schedA4 e)) = false :=
  noSubShape_sound _ _ nsub_A4_agentcall _ (schedA4_fits e hv)

theorem schedA4_no_yourname (e : PDateTime) (hv : validDT e) :
    pyIn "your name" (lowerStr (schedA4 e)) = false :=
  noSubShape_sound _ _ nsub_A4_yourname _ (schedA4_fits e hv)

theorem schedA4_no_firstname (e : PDateTime) (hv : validDT e) :
    pyIn "first name" (lowerStr (schedA4 e)) = false :=
  noSubShape_sound _ _ nsub_A4_firstname _ (schedA4_fits e hv)

theorem schedA4_no_whatsname (e : PDateTime) (hv : validDT e) :
    pyIn "what's your name" (lowerStr (schedA4 e)) = false :=
  pyIn_mono "your name" "what's your name" _ (by decide) (schedA4_no_yourname e hv)

theorem schedA4_has_morning (e : PDateTime) :
    pyIn "morning" (lowerStr (schedA4 e)) = true := by
  unfold pyIn
  rw [schedA4_append]
  apply hasSubL_append_right
  apply hasSubL_append_right
  apply hasSubL_append_right
  apply hasSubL_append_right
  apply hasSubL_append_right
  apply hasSubL_append_right
  decide

theorem schedA4_has_afternoon (e : PDateTime) :
    pyIn "afternoon" (lowerStr (schedA4 e)) = true := by
  unfold pyIn
  rw [schedA4_append]
  apply hasSubL_append_right
  apply hasSubL_append_right
  apply hasSubL_append_right
  apply hasSubL_append_right
  apply hasSubL_append_right
  apply hasSubL_append_right
  decide

theorem schedA4_has_evening (e : PDateTime) :
    pyIn "evening" (lowerStr (schedA4 e)) = true := by
  unfold pyIn
  rw [schedA4_append]
  apply hasSubL_append_right
  apply hasSubL_append_right
  apply hasSubL_append_right
  apply hasSubL_append_right
  apply hasSubL_append_right
  apply hasSubL_append_right
  decide

theorem nameQ3_schedA3 (now : PDateTime) (hv : validDT now) :
    nameQ3 (schedA3 now) = false := by
  unfold nameQ3
  rw [schedA3_no_yourname now hv, schedA3_no_firstname now hv, schedA3_no_whatsname now hv]
  rfl

theorem nameQ3_schedA4 (e : PDateTime) (hv : validDT e) :
    nameQ3 (schedA4 e) = false := by
  unfold nameQ3
  rw [schedA4_no_yourname e hv, schedA4_no_firstname e hv, schedA4_no_whatsname e hv]
  rfl

/-- Turn 1: the scheduling request starts the flow. -/
theorem detect_turn1 (now : PDateTime) :
    detect_scheduling_context now msgScenario1 = some nameQuestion := rfl

/-- Turn 2: the name answer is acknowledged and the phone number requested. -/
theorem detect_turn2 (now : PDateTime) :
    detect_scheduling_context now msgScenario2 = some schedA2 := rfl

/-- Turn 3: the ten-digit phone answer yields the option list. -/
theorem detect_turn3 (now : PDateTime) :
    detect_scheduling_context now msgScenario3 = some (schedA3 now) := rfl

/-- Turn 4: answering with the weekday name of any listed option confirms
exactly that option. -/
theorem detect_turn4 (now : PDateTime) (hv : validDT now) (e : PDateTime)
    (he : e ∈ get_next_business_days now 3 2) :
    detect_scheduling_context now (msgScenario4 now e) = some (schedA4 e) := by
  obtain ⟨o1, o2, o3, h12, h23, h36, hmap, hb1, hb2, hb3⟩ := options_structure now hv
  rw [hmap] at he
  simp only [List.mem_cons, List.not_mem_nil, or_false] at he
  have hex : ∃ o : Nat, o ≤ 6 ∧ e = addDaysDT now (2 + o) ∧
      is_business_day (addDaysDT now (2 + o)) = true := by
    rcases he with rfl | rfl | rfl
    · exact ⟨o1, by omega, rfl, hb1⟩
    · exact ⟨o2, by omega, rfl, hb2⟩
    · exact ⟨o3, by omega, rfl, hb3⟩
  obtain ⟨o, ho6, he', hbe⟩ := hex
  have hwE : weekdayDT e = (weekdayDT now + (2 + o)) % 7 := by
    rw [he']
    exact weekdayDT_addDaysDT now hv (2 + o)
  have hwE7 : weekdayDT e < 7 := weekdayDT_lt e
  have hstrip : stripStr (weekdayName.getD (weekdayDT e) "") =
      weekdayName.getD (weekdayDT e) "" := by
    have h7 : ∀ w, w < 7 →
        stripStr (weekdayName.getD w "") = weekdayName.getD w "" := by decide
    exact h7 _ hwE7
  have hsched : isSchedulingRequest
      (lowerStr (stripStr (weekdayName.getD (weekdayDT e) ""))) = false := by
    have h7 : ∀ w, w < 7 →
        isSchedulingRequest (lowerStr (stripStr (weekdayName.getD w ""))) = false := by
      decide
    exact h7 _ hwE7
  have hlen7 : (msgScenario4 now e).length = 7 := rfl
  rw [detect_date_step now (msgScenario4 now e) (weekdayName.getD (weekdayDT e) "")
    (lowerStr (schedA3 now)) (by omega) rfl rfl (schedA3_ne_empty now)
    (schedA3_no_perfect now hv) (schedA3_no_agentcall now hv) hsched
    (schedA3_no_yourname now hv) (schedA3_no_firstname now hv)
    (schedA3_no_whatsname now hv) (schedA3_no_morning now hv) (schedA3_what_day now)]
  have hfd : firstDayName
      (lowerStr (stripStr (stripStr (weekdayName.getD (weekdayDT e) "")))) =
      some (weekdayDT e) := by
    rw [hstrip, hstrip]
    have h7 : ∀ w, w < 7 →
        firstDayName (lowerStr (weekdayName.getD w "")) = some w := by decide
    exact h7 _ hwE7
  obtain ⟨D, hD2, hD8, hDmod, hparse⟩ := parse_user_date_dayname now hv
    (stripStr (weekdayName.getD (weekdayDT e) "")) (weekdayDT e) hwE7 hfd
  have hD : D = 2 + o := by
    rw [hwE] at hDmod
    have hwd7 : weekdayDT now < 7 := weekdayDT_lt now
    omega
  rw [hD] at hparse
  rw [hparse, if_pos hbe]
  simp only []
  rw [← he']
  rfl

set_option maxHeartbeats 1600000 in
/-- Turn 5: the final confirmation carries name, phone, date and time. -/
theorem detect_turn5 (now : PDateTime) (hv : validDT now) (e : PDateTime)
    (he : e ∈ get_next_business_days now 3 2) :
    detect_scheduling_context now (msgScenario5 now e) =
      some ("Perfect, John! An agent will call you at 5551234567 on " ++
        lowerStr (fmtABd e) ++
        " in the morning. Is there anything else I can help you with?") := by
  have hvE : validDT e := by
    obtain ⟨o1, o2, o3, _, _, _, hmap, _, _, _⟩ := options_structure now hv
    rw [hmap] at he
    simp only [List.mem_cons, List.not_mem_nil, or_false] at he
    rcases he with rfl | rfl | rfl <;> exact validDT_addDaysDT now hv _
  have hwE7 : weekdayDT e < 7 := weekdayDT_lt e
  have hvB := hvE
  obtain ⟨hy, hm1, hm12, hd1, hdle⟩ := hvB
  have hd31 : e.date.day ≤ 31 := le_trans hdle (daysInMonth_le _ _)
  obtain ⟨hlwne, hlwc⟩ :=
    wdNamesLower_classes _ (wdNameLower_facts (weekdayDT e) hwE7)
  obtain ⟨hlmne, hlmc⟩ :=
    moFullLower_classes _ (moFullLower_facts (e.date.month - 1) (by omega))
  obtain ⟨hddne, hddc⟩ :=
    day2Lower_classes _ (day2Lower_facts e.date.day hd1 hd31)
  have hga : greatAt ((lowerStr (schedA4 e)).data) =
      some ((lowerStr (weekdayName.getD (weekdayDT e) "")).data ++ [','] ++ [' '] ++
        (lowerStr (monthFull.getD (e.date.month - 1) "")).data ++ [' '] ++
        (lowerStr (pad2 e.date.day)).data) := by
    rw [schedA4_data e]
    exact greatAt_eval _ _ _ _
      hlwne (fun c hc => (hlwc c hc).1) (fun c hc => (hlwc c hc).2.1)
      hlmne (fun c hc => (hlmc c hc).1) (fun c hc => (hlmc c hc).2.1)
      hddne (fun c hc => (hddc c hc).1) (fun c hc => (hddc c hc).2.1)
  have hgo : greatGo ((lowerStr (schedA4 e)).data) =
      some ((lowerStr (weekdayName.getD (weekdayDT e) "")).data ++ [','] ++ [' '] ++
        (lowerStr (monthFull.getD (e.date.month - 1) "")).data ++ [' '] ++
        (lowerStr (pad2 e.date.day)).data) := by
    rw [schedA4_data e]
    apply greatGo_head
    rw [← schedA4_data e]
    exact hga
  have hcd4 : ((digitsOf (stripStr (weekdayName.getD (weekdayDT e) ""))).length
      == 10) = false := by
    have h7 : ∀ w, w < 7 →
        ((digitsOf (stripStr (weekdayName.getD w ""))).length == 10) = false := by decide
    exact h7 _ hwE7
  have hts : timeScan (msgScenario5 now e) false "there" "" = ("John", "5551234567") := by
    rw [show msgScenario5 now e =
      ⟨"user", "I want to schedule a call"⟩ :: ⟨"assistant", nameQuestion⟩ ::
        ⟨"user", "John"⟩ :: ⟨"assistant", schedA2⟩ :: ⟨"user", "5551234567"⟩ ::
        ⟨"assistant", schedA3 now⟩ :: ⟨"user", weekdayName.getD (weekdayDT e) ""⟩ ::
        ⟨"assistant", schedA4 e⟩ :: ⟨"user", "morning"⟩ :: [] from rfl]
    rw [timeScan_user_skip _ _ _ _ (by decide)]
    rw [timeScan_assistant, show nameQ3 nameQuestion = true from by decide,
      show (false || true) = true from rfl]
    rw [timeScan_user_capture _ _ _ (by decide) (by decide),
      show captureName (stripStr "John") "there" = "John" from rfl]
    rw [timeScan_assistant, show nameQ3 schedA2 = false from by decide,
      show (false || false) = false from rfl]
    rw [timeScan_user_digits _ _ _ _ _ (by decide),
      show (⟨digitsOf (stripStr "5551234567")⟩ : String) = "5551234567" from rfl]
    rw [timeScan_assistant, nameQ3_schedA3 now hv,
      show (false || false) = false from rfl]
    rw [timeScan_user_skip _ _ _ _ hcd4]
    rw [timeScan_assistant, nameQ3_schedA4 e hvE,
      show (false || false) = false from rfl]
    rw [timeScan_user_skip _ _ _ _ (by decide)]
    rfl
  have hcapne : ((lowerStr (weekdayName.getD (weekdayDT e) "")).data ++ [','] ++ [' '] ++
      (lowerStr (monthFull.getD (e.date.month - 1) "")).data ++ [' '] ++
      (lowerStr (pad2 e.date.day)).data) ≠ [] := by
    simp [List.append_eq_nil]
  have hcapstr : (⟨(lowerStr (weekdayName.getD (weekdayDT e) "")).data ++ [','] ++ [' '] ++
      (lowerStr (monthFull.getD (e.date.month - 1) "")).data ++ [' '] ++
      (lowerStr (pad2 e.date.day)).data⟩ : String) = lowerStr (fmtABd e) := by
    have hdata : (lowerStr (fmtABd e)).data =
        (lowerStr (weekdayName.getD (weekdayDT e) "")).data ++ [','] ++ [' '] ++
        (lowerStr (monthFull.getD (e.date.month - 1) "")).data ++ [' '] ++
        (lowerStr (pad2 e.date.day)).data := by
      unfold fmtABd
      simp only [lowerStr_append]
      rw [show lowerStr ", " = ", " from rfl, show lowerStr " " = " " from rfl]
      simp only [String.data_append]
      simp
    exact congrArg String.mk hdata.symm
  rw [detect_time_step now (msgScenario5 now e) "morning" (lowerStr (schedA4 e))
    (by have hlen9 : (msgScenario5 now e).length = 9 := rfl; omega) rfl rfl
    (schedA4_ne_empty e)
    (schedA4_no_perfect e hvE) (schedA4_no_agentcall e hvE) (by decide)
    (schedA4_no_yourname e hvE) (schedA4_no_firstname e hvE)
    (schedA4_no_whatsname e hvE) (schedA4_has_morning e) (schedA4_has_afternoon e)
    (schedA4_has_evening e)]
  unfold timeStepReply
  rw [hgo]
  simp only []
  rw [hts]
  rw [mk_beq_empty _ hcapne]
  rw [hcapstr]
  show some ("Perfect, " ++ "John" ++ "! An agent will call you at " ++ "5551234567" ++
      " on " ++ lowerStr (fmtABd e) ++ " in the " ++ "morning" ++
      ". Is there anything else I can help you with?") =
    some ("Perfect, John! An agent will call you at 5551234567 on " ++
      lowerStr (fmtABd e) ++
      " in the morning. Is there anything else I can help you with?")
  rw [show ("Perfect, " ++ "John" ++ "! An agent will call you at " ++ "5551234567" ++
      " on " : String) = "Perfect, John! An agent will call you at 5551234567 on "
    from rfl]
  rw [String.append_assoc, String.append_assoc]
  rw [show (" in the " ++ ("morning" ++ ". Is there anything else I can help you with?") :
      String) = " in the morning. Is there anything else I can help you with?" from rfl]

/-- C1: with the clock frozen at any valid date, the five-turn scheduling
scenario gets a direct reply from the inferencer at every turn: turn 1
("I want to schedule a call") is answered with the name question; turn 2
("John") with the phone question addressing John; turn 3 ("5551234567")
with the three listed business-day options; turn 4 (the weekday name of
any listed option) with the confirmation of exactly that date plus the
morning/afternoon/evening question; and turn 5 ("morning") with the final
reply carrying the name John, the ten-digit phone 5551234567, the
confirmed date (lower-cased, as captured from the lower-cased assistant
reply) and the word morning. -/
theorem c1_scheduling_scenario (now : PDateTime) (hv : validDT now) :
    ∃ e1 e2 e3 : PDateTime,
      get_next_business_days now 3 2 = [e1, e2, e3] ∧
      (∀ e ∈ [e1, e2, e3], is_business_day e = true) ∧
      detect_scheduling_context now msgScenario1 = some nameQuestion ∧
      pyIn "your name" (lowerStr nameQuestion) = true ∧
      detect_scheduling_context now msgScenario2 = some schedA2 ∧
      pyIn "phone number" schedA2 = true ∧
      pyIn "John" schedA2 = true ∧
      detect_scheduling_context now msgScenario3 = some (schedA3 now) ∧
      schedA3 now =
        "Got it, John! What day works best for the call? Our next available days are: " ++
          (fmtAbd e1 ++ ", " ++ fmtAbd e2 ++ ", " ++ fmtAbd e3) ∧
      ∀ e ∈ [e1, e2, e3],
        detect_scheduling_context now (msgScenario4 now e) = some (schedA4 e) ∧
        schedA4 e = "Great, " ++ fmtABd e ++
          " it is! What time works best - morning, afternoon, or evening?" ∧
        detect_scheduling_context now (msgScenario5 now e) =
          some ("Perfect, John! An agent will call you at 5551234567 on " ++
            lowerStr (fmtABd e) ++
            " in the morning. Is there anything else I can help you with?") := by
  obtain ⟨o1, o2, o3, h12, h23, h36, hmap, hb1, hb2, hb3⟩ := options_structure now hv
  refine ⟨_, _, _, hmap, ?_, detect_turn1 now, by decide, detect_turn2 now, by decide,
    by decide, detect_turn3 now, ?_, ?_⟩
  · intro e he
    simp only [List.mem_cons, List.not_mem_nil, or_false] at he
    rcases he with rfl | rfl | rfl
    · exact hb1
    · exact hb2
    · exact hb3
  · unfold schedA3 format_date_options
    rw [hmap]
    simp only [List.map_cons, List.map_nil]
    rw [intercalate3]
  · intro e he
    have he' : e ∈ get_next_business_days now 3 2 := by rw [hmap]; exact he
    exact ⟨detect_turn4 now hv e he', rfl, detect_turn5 now hv e he'⟩

/-- Witness for `c1_scheduling_scenario` at the concrete clock value
2025-06-02. -/
theorem c1_scheduling_scenario_witness :
    validDT ⟨⟨2025, 6, 2⟩, 0⟩ ∧
    (∃ e1 e2 e3 : PDateTime,
      get_next_business_days ⟨⟨2025, 6, 2⟩, 0⟩ 3 2 = [e1, e2, e3] ∧
      (∀ e ∈ [e1, e2, e3], is_business_day e = true) ∧
      detect_scheduling_context ⟨⟨2025, 6, 2⟩, 0⟩ msgScenario1 = some nameQuestion ∧
      pyIn "your name" (lowerStr nameQuestion) = true ∧
      detect_scheduling_context ⟨⟨2025, 6, 2⟩, 0⟩ msgScenario2 = some schedA2 ∧
      pyIn "phone number" schedA2 = true ∧
      pyIn "John" schedA2 = true ∧
      detect_scheduling_context ⟨⟨2025, 6, 2⟩, 0⟩ msgScenario3 =
        some (schedA3 ⟨⟨2025, 6, 2⟩, 0⟩) ∧
      schedA3 ⟨⟨2025, 6, 2⟩, 0⟩ =
        "Got it, John! What day works best for the call? Our next available days are: " ++
          (fmtAbd e1 ++ ", " ++ fmtAbd e2 ++ ", " ++ fmtAbd e3) ∧
      ∀ e ∈ [e1, e2, e3],
        detect_scheduling_context ⟨⟨2025, 6, 2⟩, 0⟩ (msgScenario4 ⟨⟨2025, 6, 2⟩, 0⟩ e) =
          some (schedA4 e) ∧
        schedA4 e = "Great, " ++ fmtABd e ++
          " it is! What time works best - morning, afternoon, or evening?" ∧
        detect_scheduling_context ⟨⟨2025, 6, 2⟩, 0⟩ (msgScenario5 ⟨⟨2025, 6, 2⟩, 0⟩ e) =
          some ("Perfect, John! An agent will call you at 5551234567 on " ++
            lowerStr (fmtABd e) ++
            " in the morning. Is there anything else I can help you with?")) :=
  ⟨by decide, c1_scheduling_scenario ⟨⟨2025, 6, 2⟩, 0⟩ (by decide)⟩
